import Mathlib

/-!
# Executor step engine: codependent step, health-check step, transformer

A shallow embedding of

* `depot/steps/codependent_step.go` (`codependentStep.Run`, `errorFormat`),
* `depot/steps/health_check_step.go` (`healthCheckStep.Run`),
* `transformer/transformer.go` (`Transformer.convertAction`, `StepsFor`),

and the properties of them that the specification states.

Go's `error` interface values are the type `GoError`; a possibly-nil `error`
is an `Option GoError` (`none` is `nil`).  Goroutines and channels are not
modelled: a `Run` is a function of what its receive operations deliver, in
the order they deliver it.
-/

namespace Executor

/-! ## Errors -/

/-- Package-level error variables created with `errors.New`; each is one
value, compared by identity. -/
inductive ErrVar where
  /-- The value of `steps.ErrCancelled`. -/
  | ErrCancelled
  /-- The value of `steps.CodependentStepExitedError`. -/
  | CodependentStepExitedError
  /-- The value of `transformer.ErrNoInterval`. -/
  | ErrNoInterval
  /-- The value of `transformer.ErrNoCheck`. -/
  | ErrNoCheck
  deriving DecidableEq, Repr

/-- Non-nil values of Go's `error` interface, as far as this program tells
them apart. -/
inductive GoError where
  /-- The value held by a package-level error variable. -/
  | named (v : ErrVar)
  /-- Any other leaf error; `msg` is what `Error()` returns. -/
  | plain (msg : String)
  /-- An `*EmittableError`: the wrapped error and the user-facing message. -/
  | emittable (wrappedErr : GoError) (msg : String)
  /-- A `*multierror.Error`: its `Errors`, and `msg`, the value of its
  `ErrorFormat` on them (what `Error()` returns). -/
  | multi (Errors : List GoError) (msg : String)

namespace GoError

mutual
/-- Equality of errors is decidable. -/
def decEq : (a b : GoError) → Decidable (a = b)
  | named v, named w =>
    if h : v = w then isTrue (by rw [h]) else isFalse (by intro e; cases e; exact h rfl)
  | plain m, plain n =>
    if h : m = n then isTrue (by rw [h]) else isFalse (by intro e; cases e; exact h rfl)
  | emittable w m, emittable v n =>
    match decEq w v with
    | isTrue hw =>
      if h : m = n then isTrue (by rw [hw, h]) else isFalse (by intro e; cases e; exact h rfl)
    | isFalse hw => isFalse (by intro e; cases e; exact hw rfl)
  | multi es m, multi fs n =>
    match decEqList es fs with
    | isTrue hw =>
      if h : m = n then isTrue (by rw [hw, h]) else isFalse (by intro e; cases e; exact h rfl)
    | isFalse hw => isFalse (by intro e; cases e; exact hw rfl)
  | named _, plain _ => isFalse (by intro e; cases e)
  | named _, emittable _ _ => isFalse (by intro e; cases e)
  | named _, multi _ _ => isFalse (by intro e; cases e)
  | plain _, named _ => isFalse (by intro e; cases e)
  | plain _, emittable _ _ => isFalse (by intro e; cases e)
  | plain _, multi _ _ => isFalse (by intro e; cases e)
  | emittable _ _, named _ => isFalse (by intro e; cases e)
  | emittable _ _, plain _ => isFalse (by intro e; cases e)
  | emittable _ _, multi _ _ => isFalse (by intro e; cases e)
  | multi _ _, named _ => isFalse (by intro e; cases e)
  | multi _ _, plain _ => isFalse (by intro e; cases e)
  | multi _ _, emittable _ _ => isFalse (by intro e; cases e)
/-- Equality of lists of errors is decidable. -/
def decEqList : (as bs : List GoError) → Decidable (as = bs)
  | [], [] => isTrue rfl
  | [], _ :: _ => isFalse (by intro e; cases e)
  | _ :: _, [] => isFalse (by intro e; cases e)
  | a :: as, b :: bs =>
    match decEq a b with
    | isTrue h =>
      match decEqList as bs with
      | isTrue hs => isTrue (by rw [h, hs])
      | isFalse hs => isFalse (by intro e; cases e; exact hs rfl)
    | isFalse h => isFalse (by intro e; cases e; exact h rfl)
end

instance : DecidableEq GoError := decEq

end GoError

/-- The message of a package-level error variable.  `ErrCancelled` is declared
outside the files embedded here; no statement below depends on its text. -/
def ErrVar.Error : ErrVar → String
  | .ErrCancelled => "cancelled"
  | .CodependentStepExitedError => "Codependent step exited"
  | .ErrNoInterval => "no interval configured"
  | .ErrNoCheck => "no check configured"

/-- The method `Error()` of the `error` interface. -/
def GoError.Error : GoError → String
  | .named v => v.Error
  | .plain msg => msg
  | .emittable _ msg => msg
  | .multi _ msg => msg

/-- Modelled from the spec: `ErrCancelled` is declared outside the files
embedded here; it is the specification's distinguished *cancelled* sentinel,
one error value that the steps compare against by identity. -/
@[match_pattern] def ErrCancelled : GoError := .named .ErrCancelled

/-- `var CodependentStepExitedError = errors.New("Codependent step exited")`. -/
@[match_pattern] def CodependentStepExitedError : GoError := .named .CodependentStepExitedError

/-- `var ErrNoInterval = errors.New("no interval configured")`. -/
@[match_pattern] def ErrNoInterval : GoError := .named .ErrNoInterval

/-- `var ErrNoCheck = errors.New("no check configured")`. -/
@[match_pattern] def ErrNoCheck : GoError := .named .ErrNoCheck

/-- Values of `os.Signal`. -/
inductive Signal where
  /-- The value `os.Interrupt`. -/
  | Interrupt
  /-- The value `os.Kill`. -/
  | Kill
  /-- Any other signal, by number. -/
  | other (n : Nat)
  deriving DecidableEq, Repr

/-! ## go-multierror -/

/-- `multierror.Append(err, e)` of the library go-multierror, for an `err`
that is a `*multierror.Error` and one non-nil `e`, on the `Errors` slice.  The
library documents it so: "If any of the errs are multierr.Error, they will be
flattened one level into err."  An `e` that is itself a `*multierror.Error`
has its `Errors` appended; any other `e` is appended as it is. -/
def multierrorAppend (errs : List GoError) (e : GoError) : List GoError :=
  match e with
  | .multi es _ => errs ++ es
  | _ => errs ++ [e]

/-! ## codependentStep -/

/-- The fields of `codependentStep` that `Run` branches on.  The substeps
enter `Run` only through the results they deliver. -/
structure codependentStep where
  errorOnExit : Bool
  cancelOthersOnExit : Bool
  deriving DecidableEq, Repr

/-- `codependentStep.errorFormat`: the loop
`if err == "" { err = e.Error() } else { err = Sprintf("%s; %s", err, e) }`. -/
def codependentStep.errorFormat (errs : List GoError) : String :=
  errs.foldl (fun err e => if err = "" then e.Error else err ++ "; " ++ e.Error) ""

/-- One call `cancel(subProcesses, signal)` made by the result loop, with the
0-based number of the loop iteration that made it (the iteration that
received the result of that number in arrival order). -/
structure CancelCall where
  atResult : Nat
  signal : Signal
  deriving DecidableEq, Repr

/-- The variables of the result loop of `codependentStep.Run`: `aggregate`
(its `Errors`), `cancelled`, the calls of `cancel` made so far, and the number
of results received so far. -/
structure LoopState where
  aggregate : List GoError
  cancelled : Bool
  cancelCalls : List CancelCall
  received : Nat
  deriving DecidableEq

/-- The state before the first iteration: `aggregate := &multierror.Error{}`,
`var cancelled bool`. -/
def LoopState.init : LoopState :=
  { aggregate := [], cancelled := false, cancelCalls := [], received := 0 }

/-- `if !cancelled { cancelled = true; cancel(subProcesses, os.Interrupt) }`. -/
def LoopState.cancelOnce (st : LoopState) : LoopState :=
  if !st.cancelled then
    { st with cancelled := true,
              cancelCalls := st.cancelCalls ++ [⟨st.received, Signal.Interrupt⟩] }
  else st

/-- Lines 54-56: a nil result becomes `CodependentStepExitedError` when
`errorOnExit` is set. -/
def codependentStep.replaceNil (step : codependentStep) (err : Option GoError) :
    Option GoError :=
  if step.errorOnExit && err == none then some CodependentStepExitedError else err

/-- One iteration of `for range subProcesses { err := <-errCh ... }`
(lines 53-72), `r` being the value received from `errCh`. -/
def codependentStep.loopBody (step : codependentStep) (st : LoopState)
    (r : Option GoError) : LoopState :=
  let err := step.replaceNil r
  let st₁ := if step.cancelOthersOnExit && err == none then st.cancelOnce else st
  let st₂ :=
    match err with
    | none => st₁
    | some e =>
      if e ≠ ErrCancelled then
        ({ st₁ with aggregate := multierrorAppend st₁.aggregate e }).cancelOnce
      else st₁
  { st₂ with received := st₂.received + 1 }

/-- The result loop of `codependentStep.Run` on the results its children
deliver, in the order they arrive on `errCh` (one per substep). -/
def codependentStep.loop (step : codependentStep) (results : List (Option GoError)) :
    LoopState :=
  results.foldl step.loopBody LoopState.init

/-- `aggregate.ErrorOrNil()`, the aggregate's `ErrorFormat` being
`step.errorFormat`: nil for no errors, the multi-error otherwise. -/
def ErrorOrNil (aggregate : List GoError) : Option GoError :=
  match aggregate with
  | [] => none
  | _ :: _ => some (.multi aggregate (codependentStep.errorFormat aggregate))

/-- The value `codependentStep.Run` returns, as a function of the results of
its children in arrival order. -/
def codependentStep.Run (step : codependentStep) (results : List (Option GoError)) :
    Option GoError :=
  ErrorOrNil (step.loop results).aggregate

/-- The errors an error stands for in an aggregate: the `Errors` of a
`*multierror.Error`, the error itself otherwise. -/
def GoError.flattened : GoError → List GoError
  | .multi es _ => es
  | e => [e]

/-- The contribution of one received result to the aggregate: nothing for a
result that, after `replaceNil`, is nil or `ErrCancelled`; the errors a
multi-error holds; the error itself otherwise. -/
def codependentStep.contribution (step : codependentStep) (r : Option GoError) :
    List GoError :=
  match step.replaceNil r with
  | none => []
  | some e => if e ≠ ErrCancelled then multierrorAppend [] e else []

/-- The results that, after `replaceNil`, are neither nil nor `ErrCancelled`,
in arrival order. -/
def codependentStep.nonCancelledResults (step : codependentStep)
    (results : List (Option GoError)) : List GoError :=
  results.filterMap fun r => (step.replaceNil r).filter fun e => decide (e ≠ ErrCancelled)

/-- The result makes the loop body reach a `cancel` statement: after
`replaceNil` it is a non-cancelled error, or it is nil while
`cancelOthersOnExit` is set. -/
def codependentStep.triggersCancel (step : codependentStep) (r : Option GoError) : Bool :=
  match step.replaceNil r with
  | none => step.cancelOthersOnExit
  | some e => decide (e ≠ ErrCancelled)

/-- The error is a `*multierror.Error`. -/
def GoError.isMulti : GoError → Bool
  | .multi _ _ => true
  | _ => false

/-! ### The goroutines of `codependentStep.Run`

`Run` starts its substeps one by one, each with a goroutine that waits for the
substep's exit and sends it on `errCh` (lines 32-39), then receives from
`errCh` once per substep (lines 52-73) and returns (line 75).  An execution is
an interleaving of the steps of `Run` itself and of those goroutines. -/

/-- Where a started substep and its goroutine (lines 35-38) stand. -/
inductive ChildStatus where
  /-- The substep runs; the goroutine is blocked in `<-subProcess.Wait()`. -/
  | running
  /-- The substep has exited and `subProcess.Wait()` has delivered `err` to
  the goroutine, which has not sent it yet. -/
  | exited (err : Option GoError)
  /-- The goroutine has sent the exit result on `errCh` and ended. -/
  | reported
  deriving DecidableEq

/-- The state of an execution of `codependentStep.Run` with its goroutines:
`substeps` is `len(step.substeps)`, `children` the substeps started so far in
the order of `subProcesses`, `errCh` the values buffered in the channel, oldest
first, `loop` the variables of the result loop, and `returned` the value `Run`
has returned, if it has. -/
structure RunThreads where
  substeps : Nat
  children : List ChildStatus
  errCh : List (Option GoError)
  loop : LoopState
  returned : Option (Option GoError)
  deriving DecidableEq

/-- The entry of `Run`: nothing started, `errCh` empty. -/
def RunThreads.init (substeps : Nat) : RunThreads :=
  { substeps := substeps, children := [], errCh := [], loop := LoopState.init,
    returned := none }

/-- One step of one of the threads. -/
inductive Transition where
  /-- `Run`: one iteration of the loop of lines 32-39, which starts the next
  substep and its goroutine. -/
  | start
  /-- Goroutine of substep `i`: `err := <-subProcess.Wait()` (line 36), the
  substep having exited with `err`. -/
  | waitDelivers (i : Nat) (err : Option GoError)
  /-- Goroutine of substep `i`: `errCh <- err` (line 37). -/
  | send (i : Nat)
  /-- `Run`: one iteration of the result loop (lines 52-73), which receives
  from `errCh`. -/
  | receive
  /-- `Run`: `return aggregate.ErrorOrNil()` (line 75). -/
  | ret
  deriving DecidableEq

/-- The state after a step, or `none` when the step cannot be taken in the
state: a thread that is elsewhere in its code, a receive from the empty
channel, a send to the full one. -/
def codependentStep.transition (step : codependentStep) (st : RunThreads) :
    Transition → Option RunThreads
  | .start =>
    if st.children.length < st.substeps then
      some { st with children := st.children ++ [.running] }
    else none
  | .waitDelivers i err =>
    match st.children[i]? with
    | some .running => some { st with children := st.children.set i (.exited err) }
    | _ => none
  | .send i =>
    match st.children[i]? with
    | some (.exited err) =>
      if st.errCh.length < st.substeps then
        some { st with children := st.children.set i .reported, errCh := st.errCh ++ [err] }
      else none
    | _ => none
  | .receive =>
    if st.children.length = st.substeps ∧ st.loop.received < st.substeps ∧
        st.returned = none then
      match st.errCh with
      | err :: rest => some { st with errCh := rest, loop := step.loopBody st.loop err }
      | [] => none
    else none
  | .ret =>
    if st.children.length = st.substeps ∧ st.loop.received = st.substeps ∧
        st.returned = none then
      some { st with returned := some (ErrorOrNil st.loop.aggregate) }
    else none

/-- The state after a sequence of steps, or `none` when one of them cannot be
taken. -/
def codependentStep.exec (step : codependentStep) (st : RunThreads) :
    List Transition → Option RunThreads
  | [] => some st
  | t :: ts =>
    match step.transition st t with
    | some st' => step.exec st' ts
    | none => none

/-! ## healthCheckStep -/

/-- A `time.Duration`: its length in nanoseconds and the text `%s` prints for
it (its `String()`). -/
structure Duration where
  nanoseconds : Nat
  text : String
  deriving DecidableEq, Repr

/-- The fields of `healthCheckStep` that `Run` reads besides its
collaborators.  The two checks enter `Run` only through the events below. -/
structure healthCheckStep where
  startTimeout : Duration
  deriving DecidableEq, Repr

/-- `timeoutMessage = "Timed out after %s: health check never passed.\n"`,
filled with its argument. -/
def timeoutMessage (d : String) : String :=
  "Timed out after " ++ d ++ ": health check never passed.\n"

/-- `timeoutCrashReason = "Instance never healthy after %s: %s"`, filled with
its arguments. -/
def timeoutCrashReason (d : String) (msg : String) : String :=
  "Instance never healthy after " ++ d ++ ": " ++ msg

/-- `healthcheckNowUnhealthy = "Instance became unhealthy: %s"`, filled with
its argument. -/
def healthcheckNowUnhealthy (msg : String) : String :=
  "Instance became unhealthy: " ++ msg

/-- Modelled from the spec: `NewEmittableError` is declared outside the files
embedded here.  The specification's emittable error wraps the child error and
carries the user-facing message, here the template already filled with the
arguments of the call. -/
def NewEmittableError (wrappedErr : GoError) (message : String) : GoError :=
  .emittable wrappedErr message

/-- What `healthCheckStep.Run` does to the outside, in program order. -/
inductive Effect where
  /-- A write to `step.logStreamer.Stdout()`. -/
  | logStdout (text : String)
  /-- A write to `step.logStreamer.Stderr()`. -/
  | logStderr (text : String)
  /-- A write to `step.healthCheckStreamer.Stderr()`. -/
  | healthCheckStderr (text : String)
  /-- A call `step.logger.Info(message, data)`. -/
  | loggerInfo (message : String) (data : List (String × String))
  /-- The call `ifrit.Background(step.readinessCheck)`. -/
  | startReadiness
  /-- The call `ifrit.Background(step.livenessCheck)`. -/
  | startLiveness
  /-- The call `readinessProcess.Signal(s)`. -/
  | signalReadiness (s : Signal)
  /-- The call `livenessProcess.Signal(s)`. -/
  | signalLiveness (s : Signal)
  /-- The statement `close(ready)`. -/
  | closeReady
  deriving DecidableEq, Repr

/-- What the environment of a running `healthCheckStep.Run` can do. -/
inductive Event where
  /-- The readiness check exits: `readinessProcess.Wait()` delivers `err`. -/
  | readinessExited (err : Option GoError)
  /-- The liveness check exits: `livenessProcess.Wait()` delivers `err`. -/
  | livenessExited (err : Option GoError)
  /-- The channel `signals` delivers `s`. -/
  | signal (s : Signal)
  /-- The clock `step.clock` advances by `d` nanoseconds. -/
  | clockAdvanced (d : Nat)
  deriving DecidableEq

/-- Where `healthCheckStep.Run` stands: blocked at one of its four receive
operations, or finished. -/
inductive Phase where
  /-- Blocked in the first `select` (lines 62-76). -/
  | awaitingReadiness
  /-- Blocked in `<-readinessProcess.Wait()` (line 74), a signal forwarded. -/
  | drainingReadiness
  /-- Blocked in the second `select` (lines 84-94). -/
  | awaitingLiveness
  /-- Blocked in `<-livenessProcess.Wait()` (line 92), a signal forwarded. -/
  | drainingLiveness
  /-- The call has returned `err`. -/
  | returned (err : Option GoError)
  /-- The call has panicked: `err.Error()` on a nil `err` (line 87). -/
  | panicked
  deriving DecidableEq

/-- A point of an execution of `healthCheckStep.Run`: where it stands, what it
has done so far, and how far its clock has advanced since `Run` began. -/
structure RunState where
  phase : Phase
  effects : List Effect
  elapsed : Nat
  deriving DecidableEq

/-- Lines 58-60: what `Run` does before its first `select`. -/
def startEffects : List Effect :=
  [.logStdout "Starting health monitoring of container\n", .startReadiness]

/-- Lines 78-82: what follows a nil readiness result, up to the second
`select`. -/
def healthyEffects : List Effect :=
  [.loggerInfo "transitioned-to-healthy" [],
   .logStdout "Container became healthy\n",
   .closeReady,
   .startLiveness]

/-- `Run` from its entry to the first `select` (lines 58-62). -/
def healthCheckStep.start (_step : healthCheckStep) : RunState :=
  { phase := .awaitingReadiness, effects := startEffects, elapsed := 0 }

/-- `Run` from one blocking point to the next, on one event.  An event that
the receive operation `Run` is blocked in does not take leaves `Run` where it
is; the clock is read by none of them. -/
def healthCheckStep.handle (step : healthCheckStep) (st : RunState) (ev : Event) :
    RunState :=
  match st.phase, ev with
  | .returned _, _ => st
  | .panicked, _ => st
  | _, .clockAdvanced d => { st with elapsed := st.elapsed + d }
  | .awaitingReadiness, .readinessExited (some err) =>
    { st with
      phase := .returned (some (NewEmittableError err
        (timeoutCrashReason step.startTimeout.text err.Error)))
      effects := st.effects ++
        [.healthCheckStderr (err.Error ++ "\n"),
         .logStderr (timeoutMessage step.startTimeout.text),
         .loggerInfo "timed-out-before-healthy" [("step-error", err.Error)]] }
  | .awaitingReadiness, .readinessExited none =>
    { st with phase := .awaitingLiveness, effects := st.effects ++ healthyEffects }
  | .awaitingReadiness, .signal s =>
    { st with phase := .drainingReadiness, effects := st.effects ++ [.signalReadiness s] }
  | .drainingReadiness, .readinessExited _ =>
    { st with phase := .returned (some ErrCancelled) }
  | .awaitingLiveness, .livenessExited (some err) =>
    { st with
      phase := .returned (some (NewEmittableError err (healthcheckNowUnhealthy err.Error)))
      effects := st.effects ++
        [.loggerInfo "transitioned-to-unhealthy" [],
         .healthCheckStderr (err.Error ++ "\n"),
         .logStdout "Container became unhealthy\n"] }
  | .awaitingLiveness, .livenessExited none =>
    { st with
      phase := .panicked
      effects := st.effects ++ [.loggerInfo "transitioned-to-unhealthy" []] }
  | .awaitingLiveness, .signal s =>
    { st with phase := .drainingLiveness, effects := st.effects ++ [.signalLiveness s] }
  | .drainingLiveness, .livenessExited _ =>
    { st with phase := .returned (some ErrCancelled) }
  | _, _ => st

/-- An execution of `healthCheckStep.Run` against the events of its
environment, in the order they occur. -/
def healthCheckStep.Run (step : healthCheckStep) (events : List Event) : RunState :=
  events.foldl step.handle step.start

/-- The events of a clock that advances by each of `ds` in turn, nothing else
happening. -/
def ticks (ds : List Nat) : List Event :=
  ds.map Event.clockAdvanced

/-- An event that the first `select` takes: an exit of the readiness check or
a signal. -/
def Event.endsReadinessWait : Event → Bool
  | .readinessExited _ => true
  | .signal _ => true
  | _ => false

/-- The call has ended, by a return or a panic. -/
def Phase.finished : Phase → Bool
  | .returned _ => true
  | .panicked => true
  | _ => false

/-- The event is an exit of the readiness check. -/
def Event.isReadinessExit : Event → Bool
  | .readinessExited _ => true
  | _ => false

/-- The event is an exit of the liveness check. -/
def Event.isLivenessExit : Event → Bool
  | .livenessExited _ => true
  | _ => false

/-! ## Transformer -/

/-- The fields of a hook that `convertAction` reads. -/
structure Hook where
  Method : String
  URL : String
  deriving DecidableEq, Repr

/-- A parsed `*url.URL`. -/
structure ParsedURL where
  text : String
  deriving DecidableEq, Repr

/-- An `http.Request` as `convertAction` builds it. -/
structure Request where
  Method : String
  URL : ParsedURL
  deriving DecidableEq, Repr

/-- The function `url.ParseRequestURI`, a parameter of the embedding. -/
abbrev UrlParser := String → Except GoError ParsedURL

/-- The dynamic values of `models.ExecutorAction.Action`.  The leaf models
are not inspected by the transformer and are kept as a label.  The last two
variants are modelled from the spec: its data model names codependent and
serial action nodes with these attributes; `convertAction` has no case for
them. -/
inductive Action where
  | RunAction (model : String)
  | DownloadAction (model : String)
  | UploadAction (model : String)
  | FetchResultAction (model : String)
  | EmitProgressAction (Action : Action) (StartMessage SuccessMessage FailureMessage : String)
  | TryAction (Action : Action)
  | MonitorAction (Action : Action) (Interval : Int)
      (HealthyThreshold UnhealthyThreshold : Nat) (HealthyHook UnhealthyHook : Hook)
  | ParallelAction (Actions : List Action)
  | CodependentAction (Actions : List Action) (errorOnExit cancelOthersOnExit : Bool)
  | SerialAction (Actions : List Action)

/-- The values of `sequence.Step` that `convertAction` constructs, one
constructor per `New` function it calls (collaborators shared by all steps
left out). -/
inductive Step where
  | run_step (model : String)
  | download_step (model : String)
  | upload_step (model : String)
  | fetch_result_step (model : String)
  | emit_progress_step (subStep : Step) (StartMessage SuccessMessage FailureMessage : String)
  | try_step (subStep : Step)
  | monitor_step (check : Step) (Interval : Int)
      (HealthyThreshold UnhealthyThreshold : Nat) (healthyHook unhealthyHook : Request)
  | parallel_step (steps : List Step)

/-- How a call returning `(value, error)` ends: `ok v` is `return v, nil`,
`error e` is `return nil, e`, `panic msg` is a call of `panic(msg)`. -/
inductive Outcome (α : Type) where
  | ok (value : α)
  | error (err : GoError)
  | panic (msg : String)

/-- The argument of the `panic` that ends `convertAction`:
`fmt.Sprintf("unknown action: %T", action)`, `action` being a
`models.ExecutorAction`. -/
def unknownActionPanic : String := "unknown action: models.ExecutorAction"

mutual
/-- `Transformer.convertAction`. -/
def convertAction (parse : UrlParser) : Action → Outcome Step
  | .RunAction m => .ok (.run_step m)
  | .DownloadAction m => .ok (.download_step m)
  | .UploadAction m => .ok (.upload_step m)
  | .FetchResultAction m => .ok (.fetch_result_step m)
  | .EmitProgressAction a start success failure =>
    match convertAction parse a with
    | .ok subStep => .ok (.emit_progress_step subStep start success failure)
    | .error err => .error err
    | .panic msg => .panic msg
  | .TryAction a =>
    match convertAction parse a with
    | .ok subStep => .ok (.try_step subStep)
    | .error err => .error err
    | .panic msg => .panic msg
  | .MonitorAction a interval healthyThreshold unhealthyThreshold healthyHook unhealthyHook =>
    match parse healthyHook.URL with
    | .error err => .error err
    | .ok healthyHookURL =>
      match parse unhealthyHook.URL with
      | .error err => .error err
      | .ok unhealthyHookURL =>
        if interval = 0 then .error ErrNoInterval
        else
          match convertAction parse a with
          | .ok check =>
            .ok (.monitor_step check interval healthyThreshold unhealthyThreshold
              ⟨healthyHook.Method, healthyHookURL⟩ ⟨unhealthyHook.Method, unhealthyHookURL⟩)
          | .error err => .error err
          | .panic msg => .panic msg
  | .ParallelAction actions =>
    match convertEach parse actions with
    | .ok steps => .ok (.parallel_step steps)
    | .error err => .error err
    | .panic msg => .panic msg
  | .CodependentAction _ _ _ => .panic unknownActionPanic
  | .SerialAction _ => .panic unknownActionPanic
/-- The loop of the `ParallelAction` case (lines 197-209): the children are
converted in order into `steps`, the first error ending the call. -/
def convertEach (parse : UrlParser) : List Action → Outcome (List Step)
  | [] => .ok []
  | a :: rest =>
    match convertAction parse a with
    | .ok step =>
      match convertEach parse rest with
      | .ok steps => .ok (step :: steps)
      | .error err => .error err
      | .panic msg => .panic msg
    | .error err => .error err
    | .panic msg => .panic msg
end

/-- The loop of `Transformer.StepsFor` (lines 70-77), `subSteps` being the
steps appended so far. -/
def StepsFor.loop (parse : UrlParser) (subSteps : List Step) :
    List Action → Outcome (List Step)
  | [] => .ok subSteps
  | a :: rest =>
    match convertAction parse a with
    | .ok step => StepsFor.loop parse (subSteps ++ [step]) rest
    | .error err => .error err
    | .panic msg => .panic msg

/-- `Transformer.StepsFor`. -/
def StepsFor (parse : UrlParser) (actions : List Action) : Outcome (List Step) :=
  StepsFor.loop parse [] actions

mutual
/-- The tree has no node of a variant outside the eight that `convertAction`
has a case for. -/
def Action.recognised : Action → Bool
  | .RunAction _ => true
  | .DownloadAction _ => true
  | .UploadAction _ => true
  | .FetchResultAction _ => true
  | .EmitProgressAction a _ _ _ => a.recognised
  | .TryAction a => a.recognised
  | .MonitorAction a _ _ _ _ _ => a.recognised
  | .ParallelAction actions => Action.recognisedAll actions
  | .CodependentAction _ _ _ => false
  | .SerialAction _ => false
/-- Every tree of the list is recognised. -/
def Action.recognisedAll : List Action → Bool
  | [] => true
  | a :: rest => a.recognised && Action.recognisedAll rest
end

mutual
/-- Every monitor node of the tree has a non-zero interval and two hook URLs
that `parse` accepts. -/
def Action.monitorsWellFormed (parse : UrlParser) : Action → Bool
  | .RunAction _ => true
  | .DownloadAction _ => true
  | .UploadAction _ => true
  | .FetchResultAction _ => true
  | .EmitProgressAction a _ _ _ => a.monitorsWellFormed parse
  | .TryAction a => a.monitorsWellFormed parse
  | .MonitorAction a interval _ _ healthyHook unhealthyHook =>
    (parse healthyHook.URL).toBool && (parse unhealthyHook.URL).toBool
      && decide (interval ≠ 0) && a.monitorsWellFormed parse
  | .ParallelAction actions => Action.monitorsWellFormedAll parse actions
  | .CodependentAction actions _ _ => Action.monitorsWellFormedAll parse actions
  | .SerialAction actions => Action.monitorsWellFormedAll parse actions
/-- Every tree of the list has well-formed monitor nodes. -/
def Action.monitorsWellFormedAll (parse : UrlParser) : List Action → Bool
  | [] => true
  | a :: rest => a.monitorsWellFormed parse && Action.monitorsWellFormedAll parse rest
end

/-- What `convertAction` reads of a monitor action besides its child and
thresholds. -/
structure MonitorNode where
  Interval : Int
  HealthyHook : Hook
  UnhealthyHook : Hook
  deriving DecidableEq, Repr

mutual
/-- The monitor nodes of an action tree, each before those below it, the
children of a node from left to right. -/
def Action.monitorNodes : Action → List MonitorNode
  | .RunAction _ => []
  | .DownloadAction _ => []
  | .UploadAction _ => []
  | .FetchResultAction _ => []
  | .EmitProgressAction a _ _ _ => a.monitorNodes
  | .TryAction a => a.monitorNodes
  | .MonitorAction a interval _ _ healthyHook unhealthyHook =>
    ⟨interval, healthyHook, unhealthyHook⟩ :: a.monitorNodes
  | .ParallelAction actions => Action.monitorNodesAll actions
  | .CodependentAction actions _ _ => Action.monitorNodesAll actions
  | .SerialAction actions => Action.monitorNodesAll actions
/-- The monitor nodes of the trees of a list. -/
def Action.monitorNodesAll : List Action → List MonitorNode
  | [] => []
  | a :: rest => a.monitorNodes ++ Action.monitorNodesAll rest
end

/-- An example of a `url.ParseRequestURI`: it rejects the empty string, with
the error the library gives for it, and accepts every other string. -/
def rejectEmpty : UrlParser :=
  fun s => if s = "" then .error (.plain "parse \"\": empty url") else .ok ⟨s⟩

/-! ## api.Routes -/

/-- An entry of `router.Routes`. -/
structure Route where
  Path : String
  Method : String
  Handler : String
  deriving DecidableEq, Repr

/-- `GetContainer = "GetContainer"`. -/
def GetContainer : String := "GetContainer"

/-- `AllocateContainer = "AllocateContainer"`. -/
def AllocateContainer : String := "AllocateContainer"

/-- `InitializeContainer = "InitializeContainer"`. -/
def InitializeContainer : String := "InitializeContainer"

/-- `RunActions = "RunActions"`. -/
def RunActions : String := "RunActions"

/-- `DeleteContainer = "DeleteContainer"`. -/
def DeleteContainer : String := "DeleteContainer"

/-- `ListContainers = "ListContainers"`. -/
def ListContainers : String := "ListContainers"

/-- `var Routes = router.Routes{...}` of package `api`. -/
def Routes : List Route :=
  [ { Path := "/containers", Method := "GET", Handler := ListContainers },
    { Path := "/containers/:guid", Method := "GET", Handler := GetContainer },
    { Path := "/containers/:guid", Method := "POST", Handler := AllocateContainer },
    { Path := "/containers/:guid/initialize", Method := "POST", Handler := InitializeContainer },
    { Path := "/containers/:guid/run", Method := "POST", Handler := RunActions },
    { Path := "/containers/:guid", Method := "DELETE", Handler := DeleteContainer } ]

end Executor

namespace Executor

/-! ## The result loop of the codependent step -/

/-- One iteration of the result loop, field by field. -/
theorem codependentStep.loopBody_eq (step : codependentStep) (st : LoopState)
    (r : Option GoError) :
    step.loopBody st r =
      { aggregate := st.aggregate ++ step.contribution r
        cancelled := st.cancelled || step.triggersCancel r
        cancelCalls :=
          if !st.cancelled && step.triggersCancel r then
            st.cancelCalls ++ [⟨st.received, Signal.Interrupt⟩]
          else st.cancelCalls
        received := st.received + 1 } := by
  obtain ⟨agg, c, calls, n⟩ := st
  obtain ⟨eoe, coe⟩ := step
  cases r with
  | none =>
    cases eoe <;> cases coe <;> cases c <;>
      simp [codependentStep.loopBody, codependentStep.replaceNil,
        codependentStep.contribution, codependentStep.triggersCancel,
        LoopState.cancelOnce, multierrorAppend, CodependentStepExitedError, ErrCancelled]
  | some e =>
    by_cases he : e = ErrCancelled
    · cases eoe <;> cases coe <;> cases c <;>
        simp [codependentStep.loopBody, codependentStep.replaceNil,
          codependentStep.contribution, codependentStep.triggersCancel,
          LoopState.cancelOnce, he]
    · cases eoe <;> cases coe <;> cases c <;>
        cases e <;>
        simp_all [codependentStep.loopBody, codependentStep.replaceNil,
          codependentStep.contribution, codependentStep.triggersCancel,
          LoopState.cancelOnce, multierrorAppend]

/-- The loop continued from any state: what it adds to the aggregate. -/
theorem codependentStep.foldl_aggregate (step : codependentStep)
    (results : List (Option GoError)) (st : LoopState) :
    (results.foldl step.loopBody st).aggregate =
      st.aggregate ++ results.flatMap step.contribution := by
  induction results generalizing st with
  | nil => simp
  | cons r rest ih =>
    rw [List.foldl_cons, ih, codependentStep.loopBody_eq]
    simp [List.flatMap_cons, List.append_assoc]

/-- The contribution of a result is the components of what the filter of the
non-cancelled results keeps of it. -/
theorem codependentStep.flatMap_contribution (step : codependentStep)
    (results : List (Option GoError)) :
    results.flatMap step.contribution =
      (step.nonCancelledResults results).flatMap (multierrorAppend []) := by
  induction results with
  | nil => simp [codependentStep.nonCancelledResults]
  | cons r rest ih =>
    have ih' := ih
    simp only [codependentStep.nonCancelledResults] at ih' ⊢
    rw [List.flatMap_cons, List.filterMap_cons, ih']
    cases h : step.replaceNil r with
    | none => simp [codependentStep.contribution, h, Option.filter]
    | some e =>
      by_cases he : e = ErrCancelled
      · simp [codependentStep.contribution, h, Option.filter, he]
      · simp [codependentStep.contribution, h, Option.filter, he, List.flatMap_cons]

/-- The loop continued from any state: the number of results received. -/
theorem codependentStep.foldl_received (step : codependentStep)
    (results : List (Option GoError)) (st : LoopState) :
    (results.foldl step.loopBody st).received = st.received + results.length := by
  induction results generalizing st with
  | nil => simp
  | cons r rest ih =>
    rw [List.foldl_cons, ih, codependentStep.loopBody_eq]
    simp only [List.length_cons]
    omega

/-- Once `cancelled` is set the loop makes no further call of `cancel`. -/
theorem codependentStep.foldl_cancelled (step : codependentStep)
    (results : List (Option GoError)) (st : LoopState) (h : st.cancelled = true) :
    (results.foldl step.loopBody st).cancelCalls = st.cancelCalls ∧
      (results.foldl step.loopBody st).cancelled = true := by
  induction results generalizing st with
  | nil => simp [h]
  | cons r rest ih =>
    rw [List.foldl_cons]
    have hb := codependentStep.loopBody_eq step st r
    have h1 : (step.loopBody st r).cancelled = true := by rw [hb]; simp [h]
    have h2 : (step.loopBody st r).cancelCalls = st.cancelCalls := by rw [hb]; simp [h]
    rw [← h2]
    exact ih _ h1

/-- The loop continued from a state in which `cancelled` is unset: it calls
`cancel` once, at the first result that triggers it, or not at all. -/
theorem codependentStep.foldl_cancelCalls (step : codependentStep)
    (results : List (Option GoError)) (st : LoopState) (h : st.cancelled = false) :
    (results.foldl step.loopBody st).cancelCalls =
      if results.any step.triggersCancel then
        st.cancelCalls ++
          [⟨st.received + results.findIdx step.triggersCancel, Signal.Interrupt⟩]
      else st.cancelCalls := by
  induction results generalizing st with
  | nil => simp
  | cons r rest ih =>
    rw [List.foldl_cons]
    have hb := codependentStep.loopBody_eq step st r
    cases ht : step.triggersCancel r with
    | true =>
      have h1 : (step.loopBody st r).cancelled = true := by rw [hb]; simp [ht]
      have h2 : (step.loopBody st r).cancelCalls =
          st.cancelCalls ++ [⟨st.received, Signal.Interrupt⟩] := by
        rw [hb]; simp [h, ht]
      rw [(codependentStep.foldl_cancelled step rest _ h1).1, h2]
      simp [List.findIdx_cons, ht]
    | false =>
      have h1 : (step.loopBody st r).cancelled = false := by rw [hb]; simp [h, ht]
      have h2 : (step.loopBody st r).cancelCalls = st.cancelCalls := by
        rw [hb]; simp [ht]
      have h3 : (step.loopBody st r).received = st.received + 1 := by rw [hb]
      rw [ih _ h1, h2, h3]
      simp [List.findIdx_cons, ht, Nat.add_assoc, Nat.add_comm 1]

/-- The calls of `cancel` of a whole loop. -/
theorem codependentStep.loop_cancelCalls (step : codependentStep)
    (results : List (Option GoError)) :
    (step.loop results).cancelCalls =
      if results.any step.triggersCancel then
        [⟨results.findIdx step.triggersCancel, Signal.Interrupt⟩]
      else [] := by
  have h := codependentStep.foldl_cancelCalls step results LoopState.init rfl
  simpa [codependentStep.loop, LoopState.init] using h

/-- The aggregate of a whole loop. -/
theorem codependentStep.loop_aggregate (step : codependentStep)
    (results : List (Option GoError)) :
    (step.loop results).aggregate = results.flatMap step.contribution := by
  have h := codependentStep.foldl_aggregate step results LoopState.init
  simpa [codependentStep.loop, LoopState.init] using h

/-- `ErrorOrNil` is nil exactly for the empty aggregate. -/
theorem ErrorOrNil_eq_none (aggregate : List GoError) :
    ErrorOrNil aggregate = none ↔ aggregate = [] := by
  cases aggregate <;> simp [ErrorOrNil]

end Executor

namespace Executor

/-- Appending to the empty aggregate gives the flattened error. -/
theorem multierrorAppend_nil (e : GoError) : multierrorAppend [] e = e.flattened := by
  cases e <;> rfl

/-- A list has an element satisfying `p` exactly when `findIdx` stops inside it. -/
theorem any_iff_findIdx_lt {α : Type} (p : α → Bool) (l : List α) :
    l.any p = true ↔ l.findIdx p < l.length := by
  rw [List.any_eq_true, List.findIdx_lt_length]

/-- The loop on the results before the first that triggers `cancel`, and on
those up to it. -/
theorem codependentStep.loop_take_cancelCalls (step : codependentStep)
    (results : List (Option GoError))
    (h : results.findIdx step.triggersCancel < results.length) :
    (step.loop (results.take (results.findIdx step.triggersCancel))).cancelCalls = [] ∧
      (step.loop (results.take (results.findIdx step.triggersCancel + 1))).cancelCalls =
        [⟨results.findIdx step.triggersCancel, Signal.Interrupt⟩] := by
  constructor
  · rw [codependentStep.loop_cancelCalls]
    have hn : ¬ ((results.take (results.findIdx step.triggersCancel)).any
        step.triggersCancel = true) := by
      rw [any_iff_findIdx_lt, List.findIdx_take, List.length_take]
      omega
    simp [hn]
  · rw [codependentStep.loop_cancelCalls]
    have hy : (results.take (results.findIdx step.triggersCancel + 1)).any
        step.triggersCancel = true := by
      rw [any_iff_findIdx_lt, List.findIdx_take, List.length_take]
      omega
    have hi : (results.take (results.findIdx step.triggersCancel + 1)).findIdx
        step.triggersCancel = results.findIdx step.triggersCancel := by
      rw [List.findIdx_take]
      omega
    simp [hy, hi]

/-! ## Claims about `codependentStep.Run` -/

/-- C1, as stated, fails: a child result that is itself a multi-error (what a
nested composite step returns) is flattened into the aggregate, which then is
not the list of non-cancelled results; and a child result that is an empty
multi-error is a non-cancelled result that leaves the aggregate empty, so
`Run` returns nil although that list is not empty. -/
theorem codependentRun_aggregate_not_filtered_results :
    ((codependentStep.mk false false).loop
        [some (.multi [.plain "a", .plain "b"] "a; b")]).aggregate ≠
      (codependentStep.mk false false).nonCancelledResults
        [some (.multi [.plain "a", .plain "b"] "a; b")] ∧
    ((codependentStep.mk false false).Run [some (.multi [] "")] = none ∧
      (codependentStep.mk false false).nonCancelledResults [some (.multi [] "")] ≠ []) := by
  decide

/-- C1, amended: for every flag setting and every sequence of child results
in arrival order, the aggregate is the concatenation, in arrival order, of
the results that after the nil replacement are neither nil nor
`ErrCancelled`, each flattened one level (a multi-error stands for the errors
it holds); it is exactly that list of results when none of them is a
multi-error.  `Run` returns nil if and only if the aggregate is empty (in
particular for no results), otherwise the multi-error holding the aggregate. -/
theorem codependentRun_aggregate (step : codependentStep)
    (results : List (Option GoError)) :
    (step.loop results).aggregate =
        (step.nonCancelledResults results).flatMap GoError.flattened ∧
      ((∀ e ∈ step.nonCancelledResults results, e.isMulti = false) →
        (step.loop results).aggregate = step.nonCancelledResults results) ∧
      (step.Run results = none ↔ (step.loop results).aggregate = []) ∧
      ((step.loop results).aggregate ≠ [] →
        step.Run results =
          some (.multi (step.loop results).aggregate
            (codependentStep.errorFormat (step.loop results).aggregate))) ∧
      step.Run [] = none := by
  have hagg : (step.loop results).aggregate =
      (step.nonCancelledResults results).flatMap GoError.flattened := by
    rw [codependentStep.loop_aggregate, codependentStep.flatMap_contribution]
    congr 1
    funext e
    exact multierrorAppend_nil e
  refine ⟨hagg, ?_, ?_, ?_, rfl⟩
  · intro h
    rw [hagg]
    generalize step.nonCancelledResults results = l at h
    induction l with
    | nil => rfl
    | cons e rest ih =>
      have he : e.isMulti = false := h e (List.mem_cons_self _ _)
      have hr := ih (fun x hx => h x (List.mem_cons_of_mem _ hx))
      rw [List.flatMap_cons, hr]
      cases e <;> simp_all [GoError.flattened, GoError.isMulti]
  · exact ErrorOrNil_eq_none _
  · intro h
    unfold codependentStep.Run
    cases hl : (step.loop results).aggregate with
    | nil => exact absurd hl h
    | cons e rest => rfl

/-- C2: with `errorOnExit` set, whatever `cancelOthersOnExit` is, every
sequence of child results in which some child returned nil gives an aggregate
that contains `CodependentStepExitedError`, and `Run` returns a non-nil
error. -/
theorem codependentRun_errorOnExit_nil (cancelOthersOnExit : Bool)
    (results : List (Option GoError)) (h : none ∈ results) :
    CodependentStepExitedError ∈
        ((codependentStep.mk true cancelOthersOnExit).loop results).aggregate ∧
      (codependentStep.mk true cancelOthersOnExit).Run results ≠ none := by
  have hmem : CodependentStepExitedError ∈
      ((codependentStep.mk true cancelOthersOnExit).loop results).aggregate := by
    rw [codependentStep.loop_aggregate, List.mem_flatMap]
    refine ⟨none, h, ?_⟩
    simp [codependentStep.contribution, codependentStep.replaceNil, multierrorAppend,
      CodependentStepExitedError, ErrCancelled]
  refine ⟨hmem, ?_⟩
  intro hnone
  unfold codependentStep.Run at hnone
  rw [ErrorOrNil_eq_none] at hnone
  rw [hnone] at hmem
  exact absurd hmem (List.not_mem_nil _)

/-- C2 at three children, the second of which returns nil. -/
theorem codependentRun_errorOnExit_nil_witness :
    CodependentStepExitedError ∈
        ((codependentStep.mk true false).loop
          [some ErrCancelled, none, some (.plain "exit status 1")]).aggregate ∧
      (codependentStep.mk true false).Run
          [some ErrCancelled, none, some (.plain "exit status 1")] ≠ none :=
  codependentRun_errorOnExit_nil false
    [some ErrCancelled, none, some (.plain "exit status 1")] (by decide)

/-- C3: with `errorOnExit` unset and `cancelOthersOnExit` set, on results
that are all nil or `ErrCancelled`, the first nil being preceded by `pre` and
followed by `post`: no `cancel` has been called after `pre`; the iteration
that receives the first nil calls `cancel(subProcesses, os.Interrupt)`, so the
call is made before any result of `post` is received; the results of `post`
add no call and no error; and `Run` returns nil. -/
theorem codependentRun_cancelOthersOnExit (pre post : List (Option GoError))
    (hpre : ∀ r ∈ pre, r = some ErrCancelled)
    (hpost : ∀ r ∈ post, r = none ∨ r = some ErrCancelled) :
    ((codependentStep.mk false true).loop pre).cancelCalls = [] ∧
      ((codependentStep.mk false true).loop (pre ++ [none])).cancelCalls =
        [⟨pre.length, Signal.Interrupt⟩] ∧
      ((codependentStep.mk false true).loop (pre ++ none :: post)).cancelCalls =
        [⟨pre.length, Signal.Interrupt⟩] ∧
      ((codependentStep.mk false true).loop (pre ++ none :: post)).aggregate = [] ∧
      (codependentStep.mk false true).Run (pre ++ none :: post) = none := by
  have tpre : ∀ r ∈ pre, (codependentStep.mk false true).triggersCancel r = false := by
    intro r hr
    rw [hpre r hr]
    simp [codependentStep.triggersCancel, codependentStep.replaceNil]
  have tnone : (codependentStep.mk false true).triggersCancel none = true := by
    simp [codependentStep.triggersCancel, codependentStep.replaceNil]
  have hidx : ∀ rest : List (Option GoError),
      (pre ++ none :: rest).findIdx (codependentStep.mk false true).triggersCancel =
        pre.length := by
    intro rest
    rw [List.findIdx_append, List.findIdx_eq_length_of_false tpre]
    simp [List.findIdx_cons, tnone]
  have hany : ∀ rest : List (Option GoError),
      (pre ++ none :: rest).any (codependentStep.mk false true).triggersCancel = true := by
    intro rest
    simp [List.any_append, tnone]
  have hagg : ((codependentStep.mk false true).loop (pre ++ none :: post)).aggregate = [] := by
    rw [codependentStep.loop_aggregate, List.flatMap_eq_nil_iff]
    intro r hr
    have hcases : r = none ∨ r = some ErrCancelled := by
      rcases List.mem_append.1 hr with h | h
      · exact Or.inr (hpre r h)
      · rcases List.mem_cons.1 h with h | h
        · exact Or.inl h
        · exact hpost r h
    rcases hcases with h | h <;> rw [h] <;>
      simp [codependentStep.contribution, codependentStep.replaceNil]
  refine ⟨?_, ?_, ?_, hagg, ?_⟩
  · rw [codependentStep.loop_cancelCalls]
    have hn : ¬ (pre.any (codependentStep.mk false true).triggersCancel = true) := by
      rw [List.any_eq_true]
      rintro ⟨r, hr, ht⟩
      rw [tpre r hr] at ht
      exact Bool.noConfusion ht
    simp [hn]
  · rw [codependentStep.loop_cancelCalls, hany [], hidx []]
    rfl
  · rw [codependentStep.loop_cancelCalls, hany post, hidx post]
    rfl
  · unfold codependentStep.Run
    rw [hagg]
    rfl

/-- C3 at four children: one cancelled, then the first nil, then a cancelled
child and a second nil. -/
theorem codependentRun_cancelOthersOnExit_witness :
    ((codependentStep.mk false true).loop [some ErrCancelled]).cancelCalls = [] ∧
      ((codependentStep.mk false true).loop ([some ErrCancelled] ++ [none])).cancelCalls =
        [⟨1, Signal.Interrupt⟩] ∧
      ((codependentStep.mk false true).loop
          ([some ErrCancelled] ++ none :: [some ErrCancelled, none])).cancelCalls =
        [⟨1, Signal.Interrupt⟩] ∧
      ((codependentStep.mk false true).loop
          ([some ErrCancelled] ++ none :: [some ErrCancelled, none])).aggregate = [] ∧
      (codependentStep.mk false true).Run
          ([some ErrCancelled] ++ none :: [some ErrCancelled, none]) = none :=
  codependentRun_cancelOthersOnExit [some ErrCancelled] [some ErrCancelled, none]
    (by decide) (by decide)

/-- C4: for every flag setting and every sequence of child results, the
result loop calls `cancel` at most once; it calls it exactly once if and only
if some result is a non-cancelled error after the nil replacement or is nil
while `cancelOthersOnExit` is set; and the call, with `os.Interrupt`, is made
by the iteration that receives the first such result: none has been made
after the results before it, and it has been made once that result is
processed. -/
theorem codependentRun_cancel_at_most_once (step : codependentStep)
    (results : List (Option GoError)) :
    (step.loop results).cancelCalls.length ≤ 1 ∧
      ((step.loop results).cancelCalls.length = 1 ↔
        ∃ r ∈ results, step.triggersCancel r = true) ∧
      (∀ c ∈ (step.loop results).cancelCalls,
        c = ⟨results.findIdx step.triggersCancel, Signal.Interrupt⟩ ∧
        c.atResult < results.length ∧
        (step.loop (results.take c.atResult)).cancelCalls = [] ∧
        (step.loop (results.take (c.atResult + 1))).cancelCalls = [c]) := by
  have hcalls := codependentStep.loop_cancelCalls step results
  by_cases hany : results.any step.triggersCancel = true
  · rw [if_pos hany] at hcalls
    have hlt := (any_iff_findIdx_lt _ _).1 hany
    refine ⟨by rw [hcalls]; simp, ?_, ?_⟩
    · rw [hcalls]
      simpa using List.any_eq_true.1 hany
    · intro c hc
      rw [hcalls] at hc
      have hceq := List.mem_singleton.1 hc
      have htake := codependentStep.loop_take_cancelCalls step results hlt
      subst hceq
      exact ⟨rfl, hlt, htake.1, htake.2⟩
  · rw [if_neg hany] at hcalls
    refine ⟨by rw [hcalls]; simp, ?_, ?_⟩
    · rw [hcalls]
      constructor
      · intro h
        simp at h
      · intro h
        exact absurd (List.any_eq_true.2 h) hany
    · intro c hc
      rw [hcalls] at hc
      exact absurd hc (List.not_mem_nil _)

/-- C5, as stated, fails: when both children of a codependent step return
`ErrCancelled`, `Run` does not return `ErrCancelled`. -/
theorem codependentRun_all_cancelled_not_ErrCancelled :
    (codependentStep.mk false false).Run [some ErrCancelled, some ErrCancelled] ≠
      some ErrCancelled := by
  decide

/-- C5, amended: when every child returns `ErrCancelled`, whatever the flags,
the results are filtered out of the aggregate, the loop calls no `cancel`,
and `Run` returns nil; and on no sequence of results does `Run` return
`ErrCancelled` itself. -/
theorem codependentRun_all_cancelled (step : codependentStep)
    (results : List (Option GoError)) (h : ∀ r ∈ results, r = some ErrCancelled) :
    (step.loop results).aggregate = [] ∧
      (step.loop results).cancelCalls = [] ∧
      step.Run results = none ∧
      ∀ rs : List (Option GoError), step.Run rs ≠ some ErrCancelled := by
  have hagg : (step.loop results).aggregate = [] := by
    rw [codependentStep.loop_aggregate, List.flatMap_eq_nil_iff]
    intro r hr
    rw [h r hr]
    cases step with
    | mk eoe coe => cases eoe <;> simp [codependentStep.contribution, codependentStep.replaceNil]
  refine ⟨hagg, ?_, ?_, ?_⟩
  · rw [codependentStep.loop_cancelCalls]
    have hn : ¬ (results.any step.triggersCancel = true) := by
      rw [List.any_eq_true]
      rintro ⟨r, hr, ht⟩
      rw [h r hr] at ht
      cases step with
      | mk eoe coe =>
        cases eoe <;> simp [codependentStep.triggersCancel, codependentStep.replaceNil] at ht
    simp [hn]
  · unfold codependentStep.Run
    rw [hagg]
    rfl
  · intro rs
    unfold codependentStep.Run
    cases (step.loop rs).aggregate with
    | nil => simp [ErrorOrNil]
    | cons e rest => simp [ErrorOrNil, ErrCancelled]

/-- C5, amended, at two children that both return `ErrCancelled`. -/
theorem codependentRun_all_cancelled_witness :
    ((codependentStep.mk true true).loop [some ErrCancelled, some ErrCancelled]).aggregate = [] ∧
      ((codependentStep.mk true true).loop
        [some ErrCancelled, some ErrCancelled]).cancelCalls = [] ∧
      (codependentStep.mk true true).Run [some ErrCancelled, some ErrCancelled] = none ∧
      ∀ rs : List (Option GoError),
        (codependentStep.mk true true).Run rs ≠ some ErrCancelled :=
  codependentRun_all_cancelled (codependentStep.mk true true)
    [some ErrCancelled, some ErrCancelled] (by decide)

end Executor

namespace Executor

/-! ## Executions of the health-check step -/

/-- A finished call takes no event. -/
theorem healthCheckStep.handle_finished (step : healthCheckStep) (st : RunState)
    (ev : Event) (h : st.phase.finished = true) : step.handle st ev = st := by
  obtain ⟨phase, effects, elapsed⟩ := st
  cases phase <;> simp [Phase.finished] at h <;> simp [healthCheckStep.handle]

/-- A finished call stays as it is under any events. -/
theorem healthCheckStep.foldl_finished (step : healthCheckStep) (events : List Event)
    (st : RunState) (h : st.phase.finished = true) :
    events.foldl step.handle st = st := by
  induction events with
  | nil => rfl
  | cons ev rest ih => rw [List.foldl_cons, healthCheckStep.handle_finished step st ev h, ih]

/-- An execution on `a ++ b` continues the execution on `a`. -/
theorem healthCheckStep.Run_append (step : healthCheckStep) (a b : List Event) :
    step.Run (a ++ b) = b.foldl step.handle (step.Run a) := by
  simp [healthCheckStep.Run, List.foldl_append]

/-- A running call only counts the clock's advances. -/
theorem healthCheckStep.foldl_ticks (step : healthCheckStep) (ds : List Nat)
    (st : RunState) (h : st.phase.finished = false) :
    (ticks ds).foldl step.handle st = { st with elapsed := st.elapsed + ds.sum } := by
  induction ds generalizing st with
  | nil => simp [ticks]
  | cons d rest ih =>
    have hstep : step.handle st (.clockAdvanced d) =
        { st with elapsed := st.elapsed + d } := by
      obtain ⟨phase, effects, elapsed⟩ := st
      cases phase <;> simp [Phase.finished] at h <;> simp [healthCheckStep.handle]
    have hfin : ({ st with elapsed := st.elapsed + d } : RunState).phase.finished = false := h
    simp only [ticks, List.map_cons, List.foldl_cons] at ih ⊢
    rw [hstep, ih _ hfin]
    simp [List.sum_cons, Nat.add_assoc]

/-- The execution on clock advances alone: `Run` is in its first `select`. -/
theorem healthCheckStep.Run_ticks (step : healthCheckStep) (ds : List Nat) :
    step.Run (ticks ds) =
      { phase := .awaitingReadiness, effects := startEffects, elapsed := ds.sum } := by
  unfold healthCheckStep.Run
  rw [healthCheckStep.foldl_ticks step ds step.start rfl]
  simp [healthCheckStep.start]

/-- The first `select` is left only by an exit of the readiness check or a
signal. -/
theorem healthCheckStep.foldl_awaitingReadiness (step : healthCheckStep)
    (pre : List Event) (st : RunState) (h : st.phase = .awaitingReadiness)
    (hpre : ∀ ev ∈ pre, ev.endsReadinessWait = false) :
    (pre.foldl step.handle st).phase = .awaitingReadiness ∧
      (pre.foldl step.handle st).effects = st.effects := by
  induction pre generalizing st with
  | nil => exact ⟨h, rfl⟩
  | cons ev rest ih =>
    have hev := hpre ev (List.mem_cons_self _ _)
    have hstep : (step.handle st ev).phase = .awaitingReadiness ∧
        (step.handle st ev).effects = st.effects := by
      obtain ⟨phase, effects, elapsed⟩ := st
      simp only at h
      subst h
      cases ev <;> simp [Event.endsReadinessWait] at hev <;> simp [healthCheckStep.handle]
    have hrest := ih (step.handle st ev) hstep.1
      (fun e he => hpre e (List.mem_cons_of_mem _ he))
    rw [List.foldl_cons]
    exact ⟨hrest.1, hrest.2.trans hstep.2⟩

/-- The receive of line 74 is left only by an exit of the readiness check. -/
theorem healthCheckStep.foldl_drainingReadiness (step : healthCheckStep)
    (mid : List Event) (st : RunState) (h : st.phase = .drainingReadiness)
    (hmid : ∀ ev ∈ mid, ev.isReadinessExit = false) :
    (mid.foldl step.handle st).phase = .drainingReadiness ∧
      (mid.foldl step.handle st).effects = st.effects := by
  induction mid generalizing st with
  | nil => exact ⟨h, rfl⟩
  | cons ev rest ih =>
    have hev := hmid ev (List.mem_cons_self _ _)
    have hstep : (step.handle st ev).phase = .drainingReadiness ∧
        (step.handle st ev).effects = st.effects := by
      obtain ⟨phase, effects, elapsed⟩ := st
      simp only at h
      subst h
      cases ev <;> simp [Event.isReadinessExit, Event.isLivenessExit] at hev <;>
        simp [healthCheckStep.handle]
    have hrest := ih (step.handle st ev) hstep.1
      (fun e he => hmid e (List.mem_cons_of_mem _ he))
    rw [List.foldl_cons]
    exact ⟨hrest.1, hrest.2.trans hstep.2⟩

/-- The receive of line 92 is left only by an exit of the liveness check. -/
theorem healthCheckStep.foldl_drainingLiveness (step : healthCheckStep)
    (mid : List Event) (st : RunState) (h : st.phase = .drainingLiveness)
    (hmid : ∀ ev ∈ mid, ev.isLivenessExit = false) :
    (mid.foldl step.handle st).phase = .drainingLiveness ∧
      (mid.foldl step.handle st).effects = st.effects := by
  induction mid generalizing st with
  | nil => exact ⟨h, rfl⟩
  | cons ev rest ih =>
    have hev := hmid ev (List.mem_cons_self _ _)
    have hstep : (step.handle st ev).phase = .drainingLiveness ∧
        (step.handle st ev).effects = st.effects := by
      obtain ⟨phase, effects, elapsed⟩ := st
      simp only at h
      subst h
      cases ev <;> simp [Event.isReadinessExit, Event.isLivenessExit] at hev <;>
        simp [healthCheckStep.handle]
    have hrest := ih (step.handle st ev) hstep.1
      (fun e he => hmid e (List.mem_cons_of_mem _ he))
    rw [List.foldl_cons]
    exact ⟨hrest.1, hrest.2.trans hstep.2⟩

/-- Once the first `select` is left, `Run` neither closes `ready` nor starts
the liveness check, whatever happens. -/
theorem healthCheckStep.foldl_pastReadiness (step : healthCheckStep)
    (events : List Event) (st : RunState) (h : st.phase ≠ .awaitingReadiness) :
    ∃ later, (events.foldl step.handle st).effects = st.effects ++ later ∧
      Effect.closeReady ∉ later ∧ Effect.startLiveness ∉ later := by
  induction events generalizing st with
  | nil => exact ⟨[], by simp, by simp, by simp⟩
  | cons ev rest ih =>
    have hstep : (step.handle st ev).phase ≠ .awaitingReadiness ∧
        ∃ l, (step.handle st ev).effects = st.effects ++ l ∧
          Effect.closeReady ∉ l ∧ Effect.startLiveness ∉ l := by
      obtain ⟨phase, effects, elapsed⟩ := st
      cases phase with
      | awaitingReadiness => exact absurd rfl h
      | drainingReadiness =>
        cases ev <;>
          exact ⟨by simp [healthCheckStep.handle], [], by simp [healthCheckStep.handle],
            by simp, by simp⟩
      | drainingLiveness =>
        cases ev <;>
          exact ⟨by simp [healthCheckStep.handle], [], by simp [healthCheckStep.handle],
            by simp, by simp⟩
      | returned e =>
        cases ev <;>
          exact ⟨by simp [healthCheckStep.handle], [], by simp [healthCheckStep.handle],
            by simp, by simp⟩
      | panicked =>
        cases ev <;>
          exact ⟨by simp [healthCheckStep.handle], [], by simp [healthCheckStep.handle],
            by simp, by simp⟩
      | awaitingLiveness =>
        cases ev with
        | readinessExited e =>
          exact ⟨by simp [healthCheckStep.handle], [], by simp [healthCheckStep.handle],
            by simp, by simp⟩
        | clockAdvanced d =>
          exact ⟨by simp [healthCheckStep.handle], [], by simp [healthCheckStep.handle],
            by simp, by simp⟩
        | signal s =>
          exact ⟨by simp [healthCheckStep.handle], [.signalLiveness s],
            by simp [healthCheckStep.handle], by simp, by simp⟩
        | livenessExited e =>
          cases e with
          | none =>
            exact ⟨by simp [healthCheckStep.handle],
              [.loggerInfo "transitioned-to-unhealthy" []],
              by simp [healthCheckStep.handle], by simp, by simp⟩
          | some err =>
            exact ⟨by simp [healthCheckStep.handle],
              [.loggerInfo "transitioned-to-unhealthy" [],
               .healthCheckStderr (err.Error ++ "\n"),
               .logStdout "Container became unhealthy\n"],
              by simp [healthCheckStep.handle], by simp, by simp⟩
    obtain ⟨hph, l, hl, hl1, hl2⟩ := hstep
    obtain ⟨later, hlater, h1, h2⟩ := ih (step.handle st ev) hph
    refine ⟨l ++ later, ?_, ?_, ?_⟩
    · rw [List.foldl_cons, hlater, hl, List.append_assoc]
    · simp [hl1, h1]
    · simp [hl2, h2]

end Executor

namespace Executor

/-- The execution on clock advances followed by one event and then others. -/
theorem healthCheckStep.Run_ticks_cons (step : healthCheckStep) (ds : List Nat)
    (ev : Event) (post : List Event) :
    step.Run (ticks ds ++ ev :: post) =
      post.foldl step.handle
        (step.handle
          { phase := .awaitingReadiness, effects := startEffects, elapsed := ds.sum } ev) := by
  rw [healthCheckStep.Run_append, healthCheckStep.Run_ticks, List.foldl_cons]

/-- The execution in which the readiness check returns nil, the clock
advances, and one more event occurs, followed by others. -/
theorem healthCheckStep.Run_healthy_cons (step : healthCheckStep) (ds ds' : List Nat)
    (ev : Event) (post : List Event) :
    step.Run (ticks ds ++ .readinessExited none :: (ticks ds' ++ ev :: post)) =
      post.foldl step.handle
        (step.handle
          { phase := .awaitingLiveness, effects := startEffects ++ healthyEffects,
            elapsed := ds.sum + ds'.sum } ev) := by
  rw [healthCheckStep.Run_ticks_cons, List.foldl_append, List.foldl_cons]
  have h : step.handle
      { phase := .awaitingReadiness, effects := startEffects, elapsed := ds.sum }
      (.readinessExited none) =
      { phase := .awaitingLiveness, effects := startEffects ++ healthyEffects,
        elapsed := ds.sum } := rfl
  rw [h, healthCheckStep.foldl_ticks step ds'
    { phase := .awaitingLiveness, effects := startEffects ++ healthyEffects,
      elapsed := ds.sum } rfl]

/-! ## Claims about `healthCheckStep.Run` -/

/-- C6: for every non-nil error `e`: if the readiness check returns `e`, no
signal having been taken, `Run` returns `e` wrapped with the timeout template
"Instance never healthy after %s: %s" filled with the start timeout and `e`'s
message, and the liveness check is never started; if the readiness check
returns nil and the liveness check then returns `e`, `Run` returns `e` wrapped
with "Instance became unhealthy: %s" filled with `e`'s message. -/
theorem healthCheckRun_wraps_check_error (step : healthCheckStep) (e : GoError)
    (ds ds' : List Nat) (post : List Event) :
    (step.Run (ticks ds ++ .readinessExited (some e) :: post)).phase =
        .returned (some (NewEmittableError e
          (timeoutCrashReason step.startTimeout.text e.Error))) ∧
      Effect.startLiveness ∉
        (step.Run (ticks ds ++ .readinessExited (some e) :: post)).effects ∧
      (step.Run (ticks ds ++ .readinessExited none ::
          (ticks ds' ++ .livenessExited (some e) :: post))).phase =
        .returned (some (NewEmittableError e (healthcheckNowUnhealthy e.Error))) ∧
      (NewEmittableError e (timeoutCrashReason step.startTimeout.text e.Error)).Error =
        "Instance never healthy after " ++ step.startTimeout.text ++ ": " ++ e.Error ∧
      (NewEmittableError e (healthcheckNowUnhealthy e.Error)).Error =
        "Instance became unhealthy: " ++ e.Error := by
  have h1 : step.Run (ticks ds ++ .readinessExited (some e) :: post) =
      { phase := .returned (some (NewEmittableError e
          (timeoutCrashReason step.startTimeout.text e.Error)))
        effects := startEffects ++
          [.healthCheckStderr (e.Error ++ "\n"),
           .logStderr (timeoutMessage step.startTimeout.text),
           .loggerInfo "timed-out-before-healthy" [("step-error", e.Error)]]
        elapsed := ds.sum } := by
    rw [healthCheckStep.Run_ticks_cons]
    exact healthCheckStep.foldl_finished step post _ rfl
  have h2 : step.Run (ticks ds ++ .readinessExited none ::
      (ticks ds' ++ .livenessExited (some e) :: post)) =
      { phase := .returned (some (NewEmittableError e (healthcheckNowUnhealthy e.Error)))
        effects := (startEffects ++ healthyEffects) ++
          [.loggerInfo "transitioned-to-unhealthy" [],
           .healthCheckStderr (e.Error ++ "\n"),
           .logStdout "Container became unhealthy\n"]
        elapsed := ds.sum + ds'.sum } := by
    rw [healthCheckStep.Run_healthy_cons]
    exact healthCheckStep.foldl_finished step post _ rfl
  refine ⟨by rw [h1], ?_, by rw [h2], rfl, rfl⟩
  rw [h1]
  simp [startEffects]

/-- C7: in either phase, a signal `s` taken while that phase's check is
running is forwarded to that check and to no other; `Run` then waits until
that check exits, whatever else happens, and returns `ErrCancelled` whatever
the check returned.  In the readiness phase `ready` is never closed and the
liveness check is never started. -/
theorem healthCheckRun_cancel (step : healthCheckStep) (s : Signal)
    (ds ds' : List Nat) (mid mid' post : List Event) (r : Option GoError)
    (hmid : ∀ ev ∈ mid, ev.isReadinessExit = false)
    (hmid' : ∀ ev ∈ mid', ev.isLivenessExit = false) :
    ((step.Run (ticks ds ++ .signal s :: mid)).phase = .drainingReadiness ∧
      (step.Run (ticks ds ++ .signal s :: (mid ++ .readinessExited r :: post))).phase =
        .returned (some ErrCancelled) ∧
      (step.Run (ticks ds ++ .signal s :: (mid ++ .readinessExited r :: post))).effects =
        startEffects ++ [.signalReadiness s] ∧
      Effect.closeReady ∉
        (step.Run (ticks ds ++ .signal s :: (mid ++ .readinessExited r :: post))).effects ∧
      Effect.startLiveness ∉
        (step.Run (ticks ds ++ .signal s :: (mid ++ .readinessExited r :: post))).effects) ∧
    ((step.Run (ticks ds ++ .readinessExited none ::
        (ticks ds' ++ .signal s :: mid'))).phase = .drainingLiveness ∧
      (step.Run (ticks ds ++ .readinessExited none ::
        (ticks ds' ++ .signal s :: (mid' ++ .livenessExited r :: post)))).phase =
        .returned (some ErrCancelled) ∧
      (step.Run (ticks ds ++ .readinessExited none ::
        (ticks ds' ++ .signal s :: (mid' ++ .livenessExited r :: post)))).effects =
        startEffects ++ healthyEffects ++ [.signalLiveness s]) := by
  have hsig : step.handle
      { phase := .awaitingReadiness, effects := startEffects, elapsed := ds.sum }
      (.signal s) =
      { phase := .drainingReadiness, effects := startEffects ++ [.signalReadiness s],
        elapsed := ds.sum } := rfl
  have hsig' : step.handle
      { phase := .awaitingLiveness, effects := startEffects ++ healthyEffects,
        elapsed := ds.sum + ds'.sum } (.signal s) =
      { phase := .drainingLiveness,
        effects := startEffects ++ healthyEffects ++ [.signalLiveness s],
        elapsed := ds.sum + ds'.sum } := rfl
  have hdrain := healthCheckStep.foldl_drainingReadiness step mid
    { phase := .drainingReadiness, effects := startEffects ++ [.signalReadiness s],
      elapsed := ds.sum } rfl hmid
  have hdrain' := healthCheckStep.foldl_drainingLiveness step mid'
    { phase := .drainingLiveness,
      effects := startEffects ++ healthyEffects ++ [.signalLiveness s],
      elapsed := ds.sum + ds'.sum } rfl hmid'
  have hexit : ∀ st : RunState, st.phase = .drainingReadiness →
      (post.foldl step.handle (step.handle st (.readinessExited r))).phase =
          .returned (some ErrCancelled) ∧
        (post.foldl step.handle (step.handle st (.readinessExited r))).effects =
          st.effects := by
    intro st hst
    obtain ⟨phase, effects, elapsed⟩ := st
    simp only at hst
    subst hst
    have hh : step.handle ⟨.drainingReadiness, effects, elapsed⟩ (.readinessExited r) =
        ⟨.returned (some ErrCancelled), effects, elapsed⟩ := rfl
    rw [hh, healthCheckStep.foldl_finished step post
      ⟨.returned (some ErrCancelled), effects, elapsed⟩ rfl]
    exact ⟨rfl, rfl⟩
  have hexit' : ∀ st : RunState, st.phase = .drainingLiveness →
      (post.foldl step.handle (step.handle st (.livenessExited r))).phase =
          .returned (some ErrCancelled) ∧
        (post.foldl step.handle (step.handle st (.livenessExited r))).effects =
          st.effects := by
    intro st hst
    obtain ⟨phase, effects, elapsed⟩ := st
    simp only at hst
    subst hst
    have hh : step.handle ⟨.drainingLiveness, effects, elapsed⟩ (.livenessExited r) =
        ⟨.returned (some ErrCancelled), effects, elapsed⟩ := rfl
    rw [hh, healthCheckStep.foldl_finished step post
      ⟨.returned (some ErrCancelled), effects, elapsed⟩ rfl]
    exact ⟨rfl, rfl⟩
  have hfull : (step.Run (ticks ds ++ .signal s ::
        (mid ++ .readinessExited r :: post))).phase = .returned (some ErrCancelled) ∧
      (step.Run (ticks ds ++ .signal s ::
        (mid ++ .readinessExited r :: post))).effects =
        startEffects ++ [.signalReadiness s] := by
    rw [healthCheckStep.Run_ticks_cons, hsig, List.foldl_append, List.foldl_cons]
    have := hexit _ hdrain.1
    exact ⟨this.1, this.2.trans hdrain.2⟩
  have hfull' : (step.Run (ticks ds ++ .readinessExited none ::
        (ticks ds' ++ .signal s :: (mid' ++ .livenessExited r :: post)))).phase =
        .returned (some ErrCancelled) ∧
      (step.Run (ticks ds ++ .readinessExited none ::
        (ticks ds' ++ .signal s :: (mid' ++ .livenessExited r :: post)))).effects =
        startEffects ++ healthyEffects ++ [.signalLiveness s] := by
    rw [healthCheckStep.Run_healthy_cons, hsig', List.foldl_append, List.foldl_cons]
    have := hexit' _ hdrain'.1
    exact ⟨this.1, this.2.trans hdrain'.2⟩
  refine ⟨⟨?_, hfull.1, hfull.2, ?_, ?_⟩, ?_, hfull'.1, hfull'.2⟩
  · rw [healthCheckStep.Run_ticks_cons, hsig]
    exact hdrain.1
  · rw [hfull.2]
    simp [startEffects]
  · rw [hfull.2]
    simp [startEffects]
  · rw [healthCheckStep.Run_healthy_cons, hsig']
    exact hdrain'.1

/-- C7 at an interrupt taken in each phase, a second signal and a clock
advance occurring before the check exits with an error. -/
theorem healthCheckRun_cancel_witness :
    (((healthCheckStep.mk ⟨50000000, "50ms"⟩).Run
        (ticks [7] ++ .signal .Interrupt :: [.signal .Kill, .clockAdvanced 3])).phase =
        .drainingReadiness ∧
      ((healthCheckStep.mk ⟨50000000, "50ms"⟩).Run
        (ticks [7] ++ .signal .Interrupt :: ([.signal .Kill, .clockAdvanced 3] ++
          .readinessExited (some (.plain "exit status 1")) :: []))).phase =
        .returned (some ErrCancelled) ∧
      ((healthCheckStep.mk ⟨50000000, "50ms"⟩).Run
        (ticks [7] ++ .signal .Interrupt :: ([.signal .Kill, .clockAdvanced 3] ++
          .readinessExited (some (.plain "exit status 1")) :: []))).effects =
        startEffects ++ [.signalReadiness .Interrupt] ∧
      Effect.closeReady ∉
        ((healthCheckStep.mk ⟨50000000, "50ms"⟩).Run
          (ticks [7] ++ .signal .Interrupt :: ([.signal .Kill, .clockAdvanced 3] ++
            .readinessExited (some (.plain "exit status 1")) :: []))).effects ∧
      Effect.startLiveness ∉
        ((healthCheckStep.mk ⟨50000000, "50ms"⟩).Run
          (ticks [7] ++ .signal .Interrupt :: ([.signal .Kill, .clockAdvanced 3] ++
            .readinessExited (some (.plain "exit status 1")) :: []))).effects) ∧
    (((healthCheckStep.mk ⟨50000000, "50ms"⟩).Run
        (ticks [7] ++ .readinessExited none ::
          (ticks [9] ++ .signal .Interrupt :: [.signal .Kill]))).phase =
        .drainingLiveness ∧
      ((healthCheckStep.mk ⟨50000000, "50ms"⟩).Run
        (ticks [7] ++ .readinessExited none ::
          (ticks [9] ++ .signal .Interrupt :: ([.signal .Kill] ++
            .livenessExited (some (.plain "exit status 1")) :: [])))).phase =
        .returned (some ErrCancelled) ∧
      ((healthCheckStep.mk ⟨50000000, "50ms"⟩).Run
        (ticks [7] ++ .readinessExited none ::
          (ticks [9] ++ .signal .Interrupt :: ([.signal .Kill] ++
            .livenessExited (some (.plain "exit status 1")) :: [])))).effects =
        startEffects ++ healthyEffects ++ [.signalLiveness .Interrupt]) :=
  healthCheckRun_cancel (healthCheckStep.mk ⟨50000000, "50ms"⟩) .Interrupt [7] [9]
    [.signal .Kill, .clockAdvanced 3] [.signal .Kill] []
    (some (.plain "exit status 1")) (by decide) (by decide)

end Executor

namespace Executor

/-- C8: in every execution `Run` closes `ready` at most once; it closes it if
and only if the first event that the first `select` takes is a nil exit of the
readiness check (the check returned nil before any signal was taken); and
when it closes it, it does so after writing "Container became healthy\n" to
the log streamer's stdout and before starting the liveness check, which it
starts once. -/
theorem healthCheckRun_ready_once (step : healthCheckStep) (events : List Event) :
    (step.Run events).effects.count Effect.closeReady ≤ 1 ∧
      (Effect.closeReady ∈ (step.Run events).effects ↔
        events.find? Event.endsReadinessWait = some (.readinessExited none)) ∧
      (Effect.closeReady ∈ (step.Run events).effects →
        ∃ later, (step.Run events).effects =
            startEffects ++
              [.loggerInfo "transitioned-to-healthy" [],
               .logStdout "Container became healthy\n",
               .closeReady,
               .startLiveness] ++ later ∧
          Effect.closeReady ∉ later ∧ Effect.startLiveness ∉ later) := by
  cases hfind : events.find? Event.endsReadinessWait with
  | none =>
    have hall : ∀ ev ∈ events, ev.endsReadinessWait = false := by
      intro ev hev
      have := List.find?_eq_none.1 hfind ev hev
      simpa using this
    have heff : (step.Run events).effects = startEffects :=
      (healthCheckStep.foldl_awaitingReadiness step events step.start rfl hall).2
    rw [heff]
    simp [startEffects]
  | some ev =>
    obtain ⟨hp, as, bs, hev, has⟩ := List.find?_eq_some.1 hfind
    have has' : ∀ a ∈ as, a.endsReadinessWait = false := by
      intro a ha
      simpa using has a ha
    have hpre := healthCheckStep.foldl_awaitingReadiness step as step.start rfl has'
    have hrun : step.Run events =
        bs.foldl step.handle (step.handle (as.foldl step.handle step.start) ev) := by
      rw [hev, healthCheckStep.Run_append, List.foldl_cons]
      rfl
    generalize as.foldl step.handle step.start = st1 at hpre hrun
    obtain ⟨ph, eff, el⟩ := st1
    obtain ⟨hph, heff⟩ := hpre
    simp only at hph heff
    subst hph
    have heff' : eff = startEffects := heff
    subst heff'
    cases ev with
    | livenessExited e => simp [Event.endsReadinessWait] at hp
    | clockAdvanced d => simp [Event.endsReadinessWait] at hp
    | signal s =>
      obtain ⟨later, hlater, h1, h2⟩ := healthCheckStep.foldl_pastReadiness step bs
        ⟨.drainingReadiness, startEffects ++ [.signalReadiness s], el⟩ (by simp)
      have hh : step.handle ⟨.awaitingReadiness, startEffects, el⟩ (.signal s) =
          ⟨.drainingReadiness, startEffects ++ [.signalReadiness s], el⟩ := rfl
      rw [hh] at hrun
      have hnot : Effect.closeReady ∉ (step.Run events).effects := by
        rw [hrun, hlater]
        simp [startEffects, h1]
      refine ⟨?_, ?_, fun h => absurd h hnot⟩
      · rw [List.count_eq_zero.2 hnot]
        exact Nat.zero_le _
      · simp [hnot]
    | readinessExited r =>
      cases r with
      | some e =>
        obtain ⟨later, hlater, h1, h2⟩ := healthCheckStep.foldl_pastReadiness step bs
          ⟨.returned (some (NewEmittableError e
              (timeoutCrashReason step.startTimeout.text e.Error))),
            startEffects ++
              [.healthCheckStderr (e.Error ++ "\n"),
               .logStderr (timeoutMessage step.startTimeout.text),
               .loggerInfo "timed-out-before-healthy" [("step-error", e.Error)]], el⟩
          (by simp)
        have hh : step.handle ⟨.awaitingReadiness, startEffects, el⟩
            (.readinessExited (some e)) =
            ⟨.returned (some (NewEmittableError e
              (timeoutCrashReason step.startTimeout.text e.Error))),
            startEffects ++
              [.healthCheckStderr (e.Error ++ "\n"),
               .logStderr (timeoutMessage step.startTimeout.text),
               .loggerInfo "timed-out-before-healthy" [("step-error", e.Error)]], el⟩ := rfl
        rw [hh] at hrun
        have hnot : Effect.closeReady ∉ (step.Run events).effects := by
          rw [hrun, hlater]
          simp [startEffects, h1]
        refine ⟨?_, ?_, fun h => absurd h hnot⟩
        · rw [List.count_eq_zero.2 hnot]
          exact Nat.zero_le _
        · simp [hnot]
      | none =>
        obtain ⟨later, hlater, h1, h2⟩ := healthCheckStep.foldl_pastReadiness step bs
          ⟨.awaitingLiveness, startEffects ++ healthyEffects, el⟩ (by simp)
        have hh : step.handle ⟨.awaitingReadiness, startEffects, el⟩
            (.readinessExited none) =
            ⟨.awaitingLiveness, startEffects ++ healthyEffects, el⟩ := rfl
        rw [hh] at hrun
        have hshape : (step.Run events).effects =
            startEffects ++ healthyEffects ++ later := by
          rw [hrun, hlater]
        have hzero : later.count Effect.closeReady = 0 := List.count_eq_zero.2 h1
        refine ⟨?_, ?_, fun _ => ⟨later, hshape, h1, h2⟩⟩
        · rw [hshape, List.count_append, List.count_append, hzero]
          decide
        · rw [hshape]
          simp [healthyEffects]

/-- C9, as stated, fails: with a start timeout of 50ms, after the step's
clock has advanced past 50ms with the readiness check still running and no
signal delivered, `Run` has not returned: it is still in its first
`select`. -/
theorem healthCheckRun_start_timeout_not_enforced :
    (healthCheckStep.mk ⟨50000000, "50ms"⟩).startTimeout.nanoseconds <
        ((healthCheckStep.mk ⟨50000000, "50ms"⟩).Run (ticks [50000000, 1])).elapsed ∧
      ((healthCheckStep.mk ⟨50000000, "50ms"⟩).Run (ticks [50000000, 1])).phase =
        .awaitingReadiness := by
  decide

/-- C9, amended: `Run` bounds neither phase by the clock.  While the
readiness check has not returned and no signal has arrived, `Run` stays in its
first `select` however far the clock advances; after a nil readiness result it
stays in its second `select` however far the clock advances.  The start
timeout only fills the timeout template of the error that `Run` returns when
the readiness check itself returns an error `e`. -/
theorem healthCheckRun_waits_without_bound (step : healthCheckStep) (ds ds' : List Nat)
    (e : GoError) :
    (step.Run (ticks ds)).phase = .awaitingReadiness ∧
      (step.Run (ticks ds)).elapsed = ds.sum ∧
      (step.Run (ticks ds ++ .readinessExited none :: ticks ds')).phase =
        .awaitingLiveness ∧
      (step.Run (ticks ds ++ .readinessExited none :: ticks ds')).elapsed =
        ds.sum + ds'.sum ∧
      (step.Run (ticks ds ++ [.readinessExited (some e)])).phase =
        .returned (some (NewEmittableError e
          (timeoutCrashReason step.startTimeout.text e.Error))) := by
  have h1 := healthCheckStep.Run_ticks step ds
  have h2 : step.Run (ticks ds ++ .readinessExited none :: ticks ds') =
      { phase := .awaitingLiveness, effects := startEffects ++ healthyEffects,
        elapsed := ds.sum + ds'.sum } := by
    rw [healthCheckStep.Run_ticks_cons]
    have h : step.handle
        { phase := .awaitingReadiness, effects := startEffects, elapsed := ds.sum }
        (.readinessExited none) =
        { phase := .awaitingLiveness, effects := startEffects ++ healthyEffects,
          elapsed := ds.sum } := rfl
    rw [h, healthCheckStep.foldl_ticks step ds'
      { phase := .awaitingLiveness, effects := startEffects ++ healthyEffects,
        elapsed := ds.sum } rfl]
  have h3 : step.Run (ticks ds ++ [.readinessExited (some e)]) =
      step.handle
        { phase := .awaitingReadiness, effects := startEffects, elapsed := ds.sum }
        (.readinessExited (some e)) := by
    rw [healthCheckStep.Run_ticks_cons]
    rfl
  refine ⟨by rw [h1], by rw [h1], by rw [h2], by rw [h2], ?_⟩
  rw [h3]
  rfl

end Executor

namespace Executor

/-! ## The transformer -/

mutual
/-- On a tree whose monitor nodes are well formed, `convertAction` returns a
step when every node is of a variant it has a case for, and otherwise reaches
its `panic`. -/
theorem convertAction_ok_or_panic (parse : UrlParser) :
    (a : Action) → a.monitorsWellFormed parse = true →
      (a.recognised = true → ∃ step, convertAction parse a = .ok step) ∧
      (a.recognised = false → convertAction parse a = .panic unknownActionPanic)
  | .RunAction _, _ => ⟨fun _ => by simp [convertAction],
      fun h => by simp [Action.recognised] at h⟩
  | .DownloadAction _, _ => ⟨fun _ => by simp [convertAction],
      fun h => by simp [Action.recognised] at h⟩
  | .UploadAction _, _ => ⟨fun _ => by simp [convertAction],
      fun h => by simp [Action.recognised] at h⟩
  | .FetchResultAction _, _ => ⟨fun _ => by simp [convertAction],
      fun h => by simp [Action.recognised] at h⟩
  | .EmitProgressAction a _ _ _, hwf => by
    have ih := convertAction_ok_or_panic parse a (by simpa [Action.monitorsWellFormed] using hwf)
    constructor
    · intro hrec
      obtain ⟨sub, hsub⟩ := ih.1 (by simpa [Action.recognised] using hrec)
      simp [convertAction, hsub]
    · intro hrec
      have hsub := ih.2 (by simpa [Action.recognised] using hrec)
      simp [convertAction, hsub]
  | .TryAction a, hwf => by
    have ih := convertAction_ok_or_panic parse a (by simpa [Action.monitorsWellFormed] using hwf)
    constructor
    · intro hrec
      obtain ⟨sub, hsub⟩ := ih.1 (by simpa [Action.recognised] using hrec)
      simp [convertAction, hsub]
    · intro hrec
      have hsub := ih.2 (by simpa [Action.recognised] using hrec)
      simp [convertAction, hsub]
  | .MonitorAction a interval _ _ healthyHook unhealthyHook, hwf => by
    simp only [Action.monitorsWellFormed, Bool.and_eq_true, decide_eq_true_eq] at hwf
    obtain ⟨⟨⟨hh, hu⟩, hi⟩, ha⟩ := hwf
    have ih := convertAction_ok_or_panic parse a ha
    cases hph : parse healthyHook.URL with
    | error e => simp [hph, Except.toBool] at hh
    | ok hurl =>
      cases hpu : parse unhealthyHook.URL with
      | error e => simp [hpu, Except.toBool] at hu
      | ok uurl =>
        constructor
        · intro hrec
          obtain ⟨sub, hsub⟩ := ih.1 (by simpa [Action.recognised] using hrec)
          simp [convertAction, hph, hpu, hi, hsub]
        · intro hrec
          have hsub := ih.2 (by simpa [Action.recognised] using hrec)
          simp [convertAction, hph, hpu, hi, hsub]
  | .ParallelAction actions, hwf => by
    have ih := convertEach_ok_or_panic parse actions
      (by simpa [Action.monitorsWellFormed] using hwf)
    constructor
    · intro hrec
      obtain ⟨subs, hsubs⟩ := ih.1 (by simpa [Action.recognised] using hrec)
      simp [convertAction, hsubs]
    · intro hrec
      have hsubs := ih.2 (by simpa [Action.recognised] using hrec)
      simp [convertAction, hsubs]
  | .CodependentAction _ _ _, _ => ⟨fun h => by simp [Action.recognised] at h,
      fun _ => by simp [convertAction]⟩
  | .SerialAction _, _ => ⟨fun h => by simp [Action.recognised] at h,
      fun _ => by simp [convertAction]⟩
/-- The same for the loop over the children of a parallel action. -/
theorem convertEach_ok_or_panic (parse : UrlParser) :
    (actions : List Action) → Action.monitorsWellFormedAll parse actions = true →
      (Action.recognisedAll actions = true → ∃ steps, convertEach parse actions = .ok steps) ∧
      (Action.recognisedAll actions = false →
        convertEach parse actions = .panic unknownActionPanic)
  | [], _ => ⟨fun _ => by simp [convertEach],
      fun h => by simp [Action.recognisedAll] at h⟩
  | a :: rest, hwf => by
    simp only [Action.monitorsWellFormedAll, Bool.and_eq_true] at hwf
    have iha := convertAction_ok_or_panic parse a hwf.1
    have ihr := convertEach_ok_or_panic parse rest hwf.2
    constructor
    · intro hrec
      simp only [Action.recognisedAll, Bool.and_eq_true] at hrec
      obtain ⟨step, hstep⟩ := iha.1 hrec.1
      obtain ⟨steps, hsteps⟩ := ihr.1 hrec.2
      simp [convertEach, hstep, hsteps]
    · intro hrec
      cases hra : a.recognised with
      | false => simp [convertEach, iha.2 hra]
      | true =>
        obtain ⟨step, hstep⟩ := iha.1 hra
        have hrr : Action.recognisedAll rest = false := by
          simpa [Action.recognisedAll, hra] using hrec
        simp [convertEach, hstep, ihr.2 hrr]
end

/-! ## Claims about `Transformer.convertAction` -/

/-- C10, as stated, fails: on a serial action, and on a codependent action,
whose children are run actions (no monitor node at all), `convertAction`
reaches its "unknown action" panic. -/
theorem convertAction_serial_codependent_panic :
    (Action.SerialAction [.RunAction "a"]).monitorsWellFormed (fun s => .ok ⟨s⟩) = true ∧
      convertAction (fun s => .ok ⟨s⟩) (.SerialAction [.RunAction "a"]) =
        .panic "unknown action: models.ExecutorAction" ∧
      (Action.CodependentAction [.RunAction "a"] false true).monitorsWellFormed
        (fun s => .ok ⟨s⟩) = true ∧
      convertAction (fun s => .ok ⟨s⟩) (.CodependentAction [.RunAction "a"] false true) =
        .panic "unknown action: models.ExecutorAction" :=
  ⟨rfl, rfl, rfl, rfl⟩

/-- C10, amended: `convertAction` has a case for run, download, upload,
fetch-result, emit-progress, try, monitor and parallel, and for no other
variant.  On every finite action tree in which every monitor node has a
non-zero interval and hook URLs that parse: if the tree is built from those
eight variants, `convertAction` returns a step and a nil error and does not
panic; if it has a codependent or serial node, `convertAction` reaches the
"unknown action" panic. -/
theorem convertAction_total_on_recognised (parse : UrlParser) (a : Action)
    (hwf : a.monitorsWellFormed parse = true) :
    (a.recognised = true → ∃ step, convertAction parse a = .ok step) ∧
      (a.recognised = false → convertAction parse a = .panic unknownActionPanic) :=
  convertAction_ok_or_panic parse a hwf

/-- C10, amended, at a tree that uses each of the eight variants: its monitor
node is well formed, every node is recognised, and it converts. -/
theorem convertAction_total_on_recognised_witness :
    (Action.ParallelAction
        [.EmitProgressAction (.RunAction "r") "start" "ok" "failed",
         .TryAction (.DownloadAction "d"),
         .MonitorAction (.UploadAction "u") 5 1 2 ⟨"POST", "/healthy"⟩ ⟨"POST", "/unhealthy"⟩,
         .FetchResultAction "f"]).monitorsWellFormed (fun s => .ok ⟨s⟩) = true ∧
      ∃ step, convertAction (fun s => .ok ⟨s⟩)
        (.ParallelAction
          [.EmitProgressAction (.RunAction "r") "start" "ok" "failed",
           .TryAction (.DownloadAction "d"),
           .MonitorAction (.UploadAction "u") 5 1 2 ⟨"POST", "/healthy"⟩
             ⟨"POST", "/unhealthy"⟩,
           .FetchResultAction "f"]) = .ok step :=
  ⟨rfl, (convertAction_total_on_recognised (fun s => .ok ⟨s⟩)
    (.ParallelAction
      [.EmitProgressAction (.RunAction "r") "start" "ok" "failed",
       .TryAction (.DownloadAction "d"),
       .MonitorAction (.UploadAction "u") 5 1 2 ⟨"POST", "/healthy"⟩ ⟨"POST", "/unhealthy"⟩,
       .FetchResultAction "f"]) rfl).1 rfl⟩

end Executor

namespace Executor

mutual
/-- On a tree built from the eight variants `convertAction` has a case for,
`convertAction` does not panic, and an error it returns is the error of one
of the tree's monitor nodes: the parse error of one of its hook URLs, or
`ErrNoInterval` for an interval of zero. -/
theorem convertAction_error_source (parse : UrlParser) :
    (a : Action) → a.recognised = true →
      (∀ msg, convertAction parse a ≠ .panic msg) ∧
      (∀ e, convertAction parse a = .error e →
        ∃ m ∈ a.monitorNodes,
          parse m.HealthyHook.URL = .error e ∨ parse m.UnhealthyHook.URL = .error e ∨
            (m.Interval = 0 ∧ e = ErrNoInterval))
  | .RunAction _, _ => by simp [convertAction]
  | .DownloadAction _, _ => by simp [convertAction]
  | .UploadAction _, _ => by simp [convertAction]
  | .FetchResultAction _, _ => by simp [convertAction]
  | .EmitProgressAction a _ _ _, hrec => by
    have ih := convertAction_error_source parse a (by simpa [Action.recognised] using hrec)
    cases hc : convertAction parse a with
    | ok sub => simp [convertAction, hc]
    | panic msg => exact absurd hc (ih.1 msg)
    | error err =>
      obtain ⟨m, hm, hsrc⟩ := ih.2 err hc
      refine ⟨by simp [convertAction, hc], ?_⟩
      intro e he
      have hee : err = e := by simpa [convertAction, hc] using he
      subst hee
      exact ⟨m, by simpa [Action.monitorNodes] using hm, hsrc⟩
  | .TryAction a, hrec => by
    have ih := convertAction_error_source parse a (by simpa [Action.recognised] using hrec)
    cases hc : convertAction parse a with
    | ok sub => simp [convertAction, hc]
    | panic msg => exact absurd hc (ih.1 msg)
    | error err =>
      obtain ⟨m, hm, hsrc⟩ := ih.2 err hc
      refine ⟨by simp [convertAction, hc], ?_⟩
      intro e he
      have hee : err = e := by simpa [convertAction, hc] using he
      subst hee
      exact ⟨m, by simpa [Action.monitorNodes] using hm, hsrc⟩
  | .MonitorAction a interval _ _ healthyHook unhealthyHook, hrec => by
    have ih := convertAction_error_source parse a (by simpa [Action.recognised] using hrec)
    cases hph : parse healthyHook.URL with
    | error perr =>
      refine ⟨by simp [convertAction, hph], ?_⟩
      intro e he
      have hee : perr = e := by simpa [convertAction, hph] using he
      subst hee
      exact ⟨⟨interval, healthyHook, unhealthyHook⟩, by simp [Action.monitorNodes],
        Or.inl hph⟩
    | ok hurl =>
      cases hpu : parse unhealthyHook.URL with
      | error perr =>
        refine ⟨by simp [convertAction, hph, hpu], ?_⟩
        intro e he
        have hee : perr = e := by simpa [convertAction, hph, hpu] using he
        subst hee
        exact ⟨⟨interval, healthyHook, unhealthyHook⟩, by simp [Action.monitorNodes],
          Or.inr (Or.inl hpu)⟩
      | ok uurl =>
        by_cases hi : interval = 0
        · refine ⟨by simp [convertAction, hph, hpu, hi], ?_⟩
          intro e he
          have hee : ErrNoInterval = e := by simpa [convertAction, hph, hpu, hi] using he
          exact ⟨⟨interval, healthyHook, unhealthyHook⟩, by simp [Action.monitorNodes],
            Or.inr (Or.inr ⟨hi, hee.symm⟩)⟩
        · cases hc : convertAction parse a with
          | ok sub => simp [convertAction, hph, hpu, hi, hc]
          | panic msg => exact absurd hc (ih.1 msg)
          | error err =>
            obtain ⟨m, hm, hsrc⟩ := ih.2 err hc
            refine ⟨by simp [convertAction, hph, hpu, hi, hc], ?_⟩
            intro e he
            have hee : err = e := by simpa [convertAction, hph, hpu, hi, hc] using he
            subst hee
            exact ⟨m, by simp [Action.monitorNodes, hm], hsrc⟩
  | .ParallelAction actions, hrec => by
    have ih := convertEach_error_source parse actions
      (by simpa [Action.recognised] using hrec)
    cases hc : convertEach parse actions with
    | ok subs => simp [convertAction, hc]
    | panic msg => exact absurd hc (ih.1 msg)
    | error err =>
      obtain ⟨m, hm, hsrc⟩ := ih.2 err hc
      refine ⟨by simp [convertAction, hc], ?_⟩
      intro e he
      have hee : err = e := by simpa [convertAction, hc] using he
      subst hee
      exact ⟨m, by simpa [Action.monitorNodes] using hm, hsrc⟩
  | .CodependentAction _ _ _, hrec => by simp [Action.recognised] at hrec
  | .SerialAction _, hrec => by simp [Action.recognised] at hrec
/-- The same for the loop over the children of a parallel action. -/
theorem convertEach_error_source (parse : UrlParser) :
    (actions : List Action) → Action.recognisedAll actions = true →
      (∀ msg, convertEach parse actions ≠ .panic msg) ∧
      (∀ e, convertEach parse actions = .error e →
        ∃ m ∈ Action.monitorNodesAll actions,
          parse m.HealthyHook.URL = .error e ∨ parse m.UnhealthyHook.URL = .error e ∨
            (m.Interval = 0 ∧ e = ErrNoInterval))
  | [], _ => by simp [convertEach]
  | a :: rest, hrec => by
    simp only [Action.recognisedAll, Bool.and_eq_true] at hrec
    have iha := convertAction_error_source parse a hrec.1
    have ihr := convertEach_error_source parse rest hrec.2
    cases hc : convertAction parse a with
    | panic msg => exact absurd hc (iha.1 msg)
    | error err =>
      obtain ⟨m, hm, hsrc⟩ := iha.2 err hc
      refine ⟨by simp [convertEach, hc], ?_⟩
      intro e he
      have hee : err = e := by simpa [convertEach, hc] using he
      subst hee
      exact ⟨m, by simp [Action.monitorNodesAll, hm], hsrc⟩
    | ok step =>
      cases hr : convertEach parse rest with
      | ok steps => simp [convertEach, hc, hr]
      | panic msg => exact absurd hr (ihr.1 msg)
      | error err =>
        obtain ⟨m, hm, hsrc⟩ := ihr.2 err hr
        refine ⟨by simp [convertEach, hc, hr], ?_⟩
        intro e he
        have hee : err = e := by simpa [convertEach, hc, hr] using he
        subst hee
        exact ⟨m, by simp [Action.monitorNodesAll, hm], hsrc⟩
end

end Executor

namespace Executor

/-! ## The loops over lists of actions -/

/-- The loop of the parallel case on children that all convert. -/
theorem convertEach_of_forall2 (parse : UrlParser) (actions : List Action)
    (steps : List Step)
    (h : List.Forall₂ (fun a s => convertAction parse a = .ok s) actions steps) :
    convertEach parse actions = .ok steps := by
  induction h with
  | nil => simp [convertEach]
  | cons ha _ ih => simp [convertEach, ha, ih]

/-- Children that all convert have a list of steps, one for each. -/
theorem forall2_of_all_ok (parse : UrlParser) (actions : List Action)
    (h : ∀ a ∈ actions, ∃ s, convertAction parse a = .ok s) :
    ∃ steps, List.Forall₂ (fun a s => convertAction parse a = .ok s) actions steps := by
  induction actions with
  | nil => exact ⟨[], List.Forall₂.nil⟩
  | cons a rest ih =>
    obtain ⟨s, hs⟩ := h a (List.mem_cons_self _ _)
    obtain ⟨ss, hss⟩ := ih (fun x hx => h x (List.mem_cons_of_mem _ hx))
    exact ⟨s :: ss, List.Forall₂.cons hs hss⟩

/-- The loop of the parallel case ends with the first child that does not
convert. -/
theorem convertEach_first_failure (parse : UrlParser) (pre : List Action) (a : Action)
    (post : List Action) (hpre : ∀ x ∈ pre, ∃ s, convertAction parse x = .ok s) :
    (∀ e, convertAction parse a = .error e →
        convertEach parse (pre ++ a :: post) = .error e) ∧
      (∀ msg, convertAction parse a = .panic msg →
        convertEach parse (pre ++ a :: post) = .panic msg) := by
  induction pre with
  | nil =>
    constructor
    · intro e he
      simp [convertEach, he]
    · intro msg hm
      simp [convertEach, hm]
  | cons x rest ih =>
    obtain ⟨s, hs⟩ := hpre x (List.mem_cons_self _ _)
    have ih' := ih (fun y hy => hpre y (List.mem_cons_of_mem _ hy))
    constructor
    · intro e he
      simp [convertEach, hs, ih'.1 e he]
    · intro msg hm
      simp [convertEach, hs, ih'.2 msg hm]

/-- The loop of `StepsFor` appends what the loop of the parallel case
collects. -/
theorem StepsFor_loop_eq (parse : UrlParser) (actions : List Action) (subSteps : List Step) :
    StepsFor.loop parse subSteps actions =
      match convertEach parse actions with
      | .ok steps => .ok (subSteps ++ steps)
      | .error err => .error err
      | .panic msg => .panic msg := by
  induction actions generalizing subSteps with
  | nil => simp [StepsFor.loop, convertEach]
  | cons a rest ih =>
    cases ha : convertAction parse a with
    | error e => simp [StepsFor.loop, convertEach, ha]
    | panic msg => simp [StepsFor.loop, convertEach, ha]
    | ok step =>
      cases hr : convertEach parse rest with
      | ok steps => simp [StepsFor.loop, convertEach, ha, ih, hr]
      | error e => simp [StepsFor.loop, convertEach, ha, ih, hr]
      | panic msg => simp [StepsFor.loop, convertEach, ha, ih, hr]

/-- `StepsFor` and the loop of the parallel case end the same way. -/
theorem StepsFor_eq_convertEach (parse : UrlParser) (actions : List Action) :
    StepsFor parse actions = convertEach parse actions := by
  unfold StepsFor
  rw [StepsFor_loop_eq]
  cases convertEach parse actions <;> simp

/-! ## Claims about the errors of `Transformer.convertAction` -/

/-- C11: for every finite action tree built from the variants `convertAction`
recognises, a non-nil error is returned only if the tree has a monitor node
one of whose hook URLs the parser rejects or whose interval is zero, and the
error returned is that parse error or `ErrNoInterval` itself; an error of a
child passes unchanged through an enclosing emit-progress, try or monitor
node, and through an enclosing parallel node of which it is the first child
that does not convert; a tree with no monitor node converts to a step; and no
such tree reaches the panic. -/
theorem convertAction_errors_only_from_monitors (parse : UrlParser) (a : Action)
    (hrec : a.recognised = true) :
    (∀ e, convertAction parse a = .error e →
        ∃ m ∈ a.monitorNodes,
          parse m.HealthyHook.URL = .error e ∨ parse m.UnhealthyHook.URL = .error e ∨
            (m.Interval = 0 ∧ e = ErrNoInterval)) ∧
      (a.monitorNodes = [] → ∃ step, convertAction parse a = .ok step) ∧
      (∀ msg, convertAction parse a ≠ .panic msg) ∧
      (∀ e, convertAction parse a = .error e →
        (∀ start success failure,
          convertAction parse (.EmitProgressAction a start success failure) = .error e) ∧
        convertAction parse (.TryAction a) = .error e ∧
        (∀ interval ht ut (hh uh : Hook) hurl uurl, parse hh.URL = .ok hurl →
          parse uh.URL = .ok uurl → interval ≠ 0 →
          convertAction parse (.MonitorAction a interval ht ut hh uh) = .error e) ∧
        (∀ pre post : List Action, (∀ x ∈ pre, ∃ s, convertAction parse x = .ok s) →
          convertAction parse (.ParallelAction (pre ++ a :: post)) = .error e)) := by
  have h := convertAction_error_source parse a hrec
  refine ⟨h.2, ?_, h.1, ?_⟩
  · intro hnone
    cases hc : convertAction parse a with
    | ok step => exact ⟨step, rfl⟩
    | panic msg => exact absurd hc (h.1 msg)
    | error e =>
      obtain ⟨m, hm, _⟩ := h.2 e hc
      rw [hnone] at hm
      exact absurd hm (List.not_mem_nil _)
  · intro e he
    refine ⟨?_, ?_, ?_, ?_⟩
    · intro start success failure
      simp [convertAction, he]
    · simp [convertAction, he]
    · intro interval ht ut hh uh hurl uurl h1 h2 hi
      simp [convertAction, he, h1, h2, hi]
    · intro pre post hpre
      simp [convertAction, (convertEach_first_failure parse pre a post hpre).1 e he]

/-- C11 at a monitor action with an interval of zero under an emit-progress
node: the tree is recognised and fails with `ErrNoInterval`, which is the
error of its monitor node, and the same error comes out of an enclosing try
node and of an enclosing parallel node in which a run action precedes it and
a monitor action with a rejected hook URL follows it. -/
theorem convertAction_errors_only_from_monitors_witness :
    convertAction rejectEmpty
        (.EmitProgressAction
          (.MonitorAction (.RunAction "check") 0 1 1 ⟨"POST", "/up"⟩ ⟨"POST", "/down"⟩)
          "start" "ok" "failed") = .error ErrNoInterval ∧
      (∃ m ∈ (Action.EmitProgressAction
            (.MonitorAction (.RunAction "check") 0 1 1 ⟨"POST", "/up"⟩ ⟨"POST", "/down"⟩)
            "start" "ok" "failed").monitorNodes,
          rejectEmpty m.HealthyHook.URL = .error ErrNoInterval ∨
            rejectEmpty m.UnhealthyHook.URL = .error ErrNoInterval ∨
            (m.Interval = 0 ∧ ErrNoInterval = ErrNoInterval)) ∧
      convertAction rejectEmpty
        (.TryAction (.EmitProgressAction
          (.MonitorAction (.RunAction "check") 0 1 1 ⟨"POST", "/up"⟩ ⟨"POST", "/down"⟩)
          "start" "ok" "failed")) = .error ErrNoInterval ∧
      convertAction rejectEmpty
        (.ParallelAction ([.RunAction "r"] ++
          .EmitProgressAction
            (.MonitorAction (.RunAction "check") 0 1 1 ⟨"POST", "/up"⟩ ⟨"POST", "/down"⟩)
            "start" "ok" "failed" ::
          [.MonitorAction (.RunAction "other") 5 1 1 ⟨"POST", ""⟩ ⟨"POST", "/down"⟩])) =
        .error ErrNoInterval :=
  let h := convertAction_errors_only_from_monitors rejectEmpty
    (.EmitProgressAction
      (.MonitorAction (.RunAction "check") 0 1 1 ⟨"POST", "/up"⟩ ⟨"POST", "/down"⟩)
      "start" "ok" "failed") rfl
  ⟨rfl, h.1 ErrNoInterval rfl, (h.2.2.2 ErrNoInterval rfl).2.1,
    (h.2.2.2 ErrNoInterval rfl).2.2.2 [.RunAction "r"]
      [.MonitorAction (.RunAction "other") 5 1 1 ⟨"POST", ""⟩ ⟨"POST", "/down"⟩]
      (by intro x hx; rw [List.mem_singleton.1 hx]; exact ⟨_, rfl⟩)⟩

/-- C12, as stated, fails: a monitor action with an interval of zero whose
healthy hook has the empty URL fails with the parse error of that URL, not
with `ErrNoInterval`; so does one whose unhealthy hook has the empty URL. -/
theorem convertAction_monitor_zero_interval_bad_hook :
    (convertAction rejectEmpty
        (.MonitorAction (.RunAction "check") 0 1 1 ⟨"POST", ""⟩ ⟨"POST", "/down"⟩) =
        .error (.plain "parse \"\": empty url") ∧
      convertAction rejectEmpty
        (.MonitorAction (.RunAction "check") 0 1 1 ⟨"POST", ""⟩ ⟨"POST", "/down"⟩) ≠
        .error ErrNoInterval) ∧
    (convertAction rejectEmpty
        (.MonitorAction (.RunAction "check") 0 1 1 ⟨"POST", "/up"⟩ ⟨"POST", ""⟩) =
        .error (.plain "parse \"\": empty url") ∧
      convertAction rejectEmpty
        (.MonitorAction (.RunAction "check") 0 1 1 ⟨"POST", "/up"⟩ ⟨"POST", ""⟩) ≠
        .error ErrNoInterval) := by
  have h : convertAction rejectEmpty
      (.MonitorAction (.RunAction "check") 0 1 1 ⟨"POST", ""⟩ ⟨"POST", "/down"⟩) =
      .error (.plain "parse \"\": empty url") := rfl
  have h' : convertAction rejectEmpty
      (.MonitorAction (.RunAction "check") 0 1 1 ⟨"POST", "/up"⟩ ⟨"POST", ""⟩) =
      .error (.plain "parse \"\": empty url") := rfl
  refine ⟨⟨h, ?_⟩, h', ?_⟩
  · rw [h]
    intro hne
    simp [ErrNoInterval] at hne
  · rw [h']
    intro hne
    simp [ErrNoInterval] at hne

/-- C12, amended: on a monitor action whose interval is zero, for every value
of the thresholds, the hook methods and the child action (which is not
converted): if the parser accepts both hook URLs, `convertAction` fails with
`ErrNoInterval` ("no interval configured"); if it rejects the healthy hook's
URL, `convertAction` fails with that parse error; if it accepts the healthy
hook's URL and rejects the unhealthy hook's, `convertAction` fails with that
parse error: both URLs are parsed before the interval is tested. -/
theorem convertAction_monitor_no_interval (parse : UrlParser) (a : Action)
    (healthyThreshold unhealthyThreshold : Nat) (healthyHook unhealthyHook : Hook) :
    (∀ healthyURL unhealthyURL, parse healthyHook.URL = .ok healthyURL →
        parse unhealthyHook.URL = .ok unhealthyURL →
        convertAction parse
          (.MonitorAction a 0 healthyThreshold unhealthyThreshold healthyHook unhealthyHook) =
          .error ErrNoInterval) ∧
      (∀ e, parse healthyHook.URL = .error e →
        convertAction parse
          (.MonitorAction a 0 healthyThreshold unhealthyThreshold healthyHook unhealthyHook) =
          .error e) ∧
      (∀ healthyURL e, parse healthyHook.URL = .ok healthyURL →
        parse unhealthyHook.URL = .error e →
        convertAction parse
          (.MonitorAction a 0 healthyThreshold unhealthyThreshold healthyHook unhealthyHook) =
          .error e) ∧
      ErrNoInterval.Error = "no interval configured" := by
  refine ⟨?_, ?_, ?_, rfl⟩
  · intro healthyURL unhealthyURL hh hu
    simp [convertAction, hh, hu]
  · intro e hh
    simp [convertAction, hh]
  · intro healthyURL e hh hu
    simp [convertAction, hh, hu]

/-- C12, amended, at monitor actions with an interval of zero whose child is a
serial action, which `convertAction` has no case for: with two hook URLs that
parse the result is `ErrNoInterval`; with a rejected healthy hook URL, and
with a rejected unhealthy hook URL, it is the parse error. -/
theorem convertAction_monitor_no_interval_witness :
    convertAction rejectEmpty
        (.MonitorAction (.SerialAction []) 0 3 5 ⟨"POST", "/up"⟩ ⟨"PUT", "/down"⟩) =
        .error ErrNoInterval ∧
      convertAction rejectEmpty
        (.MonitorAction (.SerialAction []) 0 3 5 ⟨"POST", ""⟩ ⟨"PUT", "/down"⟩) =
        .error (.plain "parse \"\": empty url") ∧
      convertAction rejectEmpty
        (.MonitorAction (.SerialAction []) 0 3 5 ⟨"POST", "/up"⟩ ⟨"PUT", ""⟩) =
        .error (.plain "parse \"\": empty url") :=
  ⟨(convertAction_monitor_no_interval rejectEmpty (.SerialAction []) 3 5
      ⟨"POST", "/up"⟩ ⟨"PUT", "/down"⟩).1 ⟨"/up"⟩ ⟨"/down"⟩ rfl rfl,
    (convertAction_monitor_no_interval rejectEmpty (.SerialAction []) 3 5
      ⟨"POST", ""⟩ ⟨"PUT", "/down"⟩).2.1 _ rfl,
    (convertAction_monitor_no_interval rejectEmpty (.SerialAction []) 3 5
      ⟨"POST", "/up"⟩ ⟨"PUT", ""⟩).2.2.1 ⟨"/up"⟩ _ rfl rfl⟩

end Executor

namespace Executor

/-! ## Claims about `StepsFor` and the parallel case -/

/-- C13, as stated, fails: on a list whose second action is a serial action,
not every action converts, and `StepsFor` returns neither a list nor an
error: the panic of `convertAction` ends it. -/
theorem StepsFor_panics_on_unknown_action :
    StepsFor rejectEmpty [.RunAction "r", .SerialAction [.RunAction "s"]] =
      .panic "unknown action: models.ExecutorAction" :=
  rfl

/-- C13, amended: for every list of actions, if every action converts,
`StepsFor` returns the list of their steps, of the same length and in the same
order, and no error (the empty list of steps for no actions); otherwise the
first action in list order that does not convert decides: if it returned an
error, `StepsFor` returns a nil list and that error; if it reached the
"unknown action" panic, so does `StepsFor`; in both cases whatever follows it
in the list plays no part. -/
theorem StepsFor_one_to_one (parse : UrlParser) (actions : List Action) :
    ((∀ a ∈ actions, ∃ s, convertAction parse a = .ok s) →
        ∃ steps, StepsFor parse actions = .ok steps ∧ steps.length = actions.length ∧
          List.Forall₂ (fun a s => convertAction parse a = .ok s) actions steps) ∧
      StepsFor parse [] = .ok [] ∧
      (∀ pre a post e, actions = pre ++ a :: post →
        (∀ x ∈ pre, ∃ s, convertAction parse x = .ok s) →
        convertAction parse a = .error e → StepsFor parse actions = .error e) ∧
      (∀ pre a post msg, actions = pre ++ a :: post →
        (∀ x ∈ pre, ∃ s, convertAction parse x = .ok s) →
        convertAction parse a = .panic msg → StepsFor parse actions = .panic msg) := by
  refine ⟨?_, rfl, ?_, ?_⟩
  · intro hall
    obtain ⟨steps, hsteps⟩ := forall2_of_all_ok parse actions hall
    refine ⟨steps, ?_, hsteps.length_eq.symm, hsteps⟩
    rw [StepsFor_eq_convertEach]
    exact convertEach_of_forall2 parse actions steps hsteps
  · intro pre a post e hact hpre he
    rw [hact, StepsFor_eq_convertEach]
    exact (convertEach_first_failure parse pre a post hpre).1 e he
  · intro pre a post msg hact hpre hm
    rw [hact, StepsFor_eq_convertEach]
    exact (convertEach_first_failure parse pre a post hpre).2 msg hm

/-- C18, as stated, fails: on a parallel action whose second child is a serial
action, not every child converts, and `convertAction` returns neither a step
nor an error: it panics. -/
theorem convertAction_parallel_panics_on_unknown_child :
    convertAction rejectEmpty
        (.ParallelAction [.RunAction "r", .SerialAction [.RunAction "s"]]) =
      .panic "unknown action: models.ExecutorAction" :=
  rfl

/-- C18, amended: on a parallel action with children `a1..an`, if every
child converts, `convertAction` returns the parallel step of exactly `n`
steps, the i-th being the step of `ai` (a parallel step with no children for
`n = 0`); otherwise the first child in order that does not convert decides:
if it returned an error, `convertAction` returns a nil step and that error;
if it reached the "unknown action" panic, so does the call; in both cases the
later children play no part and no parallel step is built. -/
theorem convertAction_parallel (parse : UrlParser) (actions : List Action) :
    ((∀ a ∈ actions, ∃ s, convertAction parse a = .ok s) →
        ∃ steps, convertAction parse (.ParallelAction actions) = .ok (.parallel_step steps) ∧
          steps.length = actions.length ∧
          List.Forall₂ (fun a s => convertAction parse a = .ok s) actions steps) ∧
      convertAction parse (.ParallelAction []) = .ok (.parallel_step []) ∧
      (∀ pre a post e, actions = pre ++ a :: post →
        (∀ x ∈ pre, ∃ s, convertAction parse x = .ok s) →
        convertAction parse a = .error e →
        convertAction parse (.ParallelAction actions) = .error e) ∧
      (∀ pre a post msg, actions = pre ++ a :: post →
        (∀ x ∈ pre, ∃ s, convertAction parse x = .ok s) →
        convertAction parse a = .panic msg →
        convertAction parse (.ParallelAction actions) = .panic msg) := by
  refine ⟨?_, by simp [convertAction, convertEach], ?_, ?_⟩
  · intro hall
    obtain ⟨steps, hsteps⟩ := forall2_of_all_ok parse actions hall
    refine ⟨steps, ?_, hsteps.length_eq.symm, hsteps⟩
    simp [convertAction, convertEach_of_forall2 parse actions steps hsteps]
  · intro pre a post e hact hpre he
    rw [hact]
    simp [convertAction, (convertEach_first_failure parse pre a post hpre).1 e he]
  · intro pre a post msg hact hpre hm
    rw [hact]
    simp [convertAction, (convertEach_first_failure parse pre a post hpre).2 msg hm]

end Executor

namespace Executor

/-! ## Further claims about the codependent step -/

/-- C14: `errorFormat` does not join with "; " when the text built so far is
empty.  For the errors `errors.New("")`, `errors.New("b")` it returns "b", not
the joined text "; b"; for errors with the messages "a", "b" it returns
"a; b", and for no errors the empty string. -/
theorem errorFormat_empty_first_message :
    codependentStep.errorFormat [.plain "", .plain "b"] = "b" ∧
      codependentStep.errorFormat [.plain "", .plain "b"] ≠
        (GoError.plain "").Error ++ "; " ++ (GoError.plain "b").Error ∧
      codependentStep.errorFormat [.plain "a", .plain "b"] = "a; b" ∧
      codependentStep.errorFormat [] = "" := by
  decide

/-- The number of calls of `cancel` of a loop. -/
theorem codependentStep.loop_cancelCalls_length (step : codependentStep)
    (results : List (Option GoError)) :
    (step.loop results).cancelCalls.length =
      if results.any step.triggersCancel then 1 else 0 := by
  rw [codependentStep.loop_cancelCalls]
  split <;> rfl

/-- C15: for every flag setting and any two arrival orders of the same
multiset of child results, the aggregated errors form the same multiset,
`Run` returns nil for one order if and only if it does for the other, and the
number of calls of `cancel`, 0 or 1, is the same. -/
theorem codependentRun_order_independent (step : codependentStep)
    (results₁ results₂ : List (Option GoError)) (h : results₁.Perm results₂) :
    ((step.loop results₁).aggregate).Perm (step.loop results₂).aggregate ∧
      (step.Run results₁ = none ↔ step.Run results₂ = none) ∧
      (step.loop results₁).cancelCalls.length = (step.loop results₂).cancelCalls.length ∧
      (step.loop results₁).cancelCalls.length ≤ 1 := by
  have hagg : ((step.loop results₁).aggregate).Perm (step.loop results₂).aggregate := by
    rw [codependentStep.loop_aggregate, codependentStep.loop_aggregate]
    exact List.Perm.flatMap_right _ h
  have hany : results₁.any step.triggersCancel = results₂.any step.triggersCancel := by
    apply Bool.eq_iff_iff.2
    rw [List.any_eq_true, List.any_eq_true]
    constructor
    · rintro ⟨r, hr, ht⟩
      exact ⟨r, h.mem_iff.1 hr, ht⟩
    · rintro ⟨r, hr, ht⟩
      exact ⟨r, h.mem_iff.2 hr, ht⟩
  refine ⟨hagg, ?_, ?_, ?_⟩
  · unfold codependentStep.Run
    rw [ErrorOrNil_eq_none, ErrorOrNil_eq_none]
    constructor
    · intro h1
      rw [h1] at hagg
      exact (List.Perm.nil_eq hagg).symm
    · intro h2
      rw [h2] at hagg
      exact List.Perm.eq_nil hagg
  · rw [codependentStep.loop_cancelCalls_length, codependentStep.loop_cancelCalls_length,
      hany]
  · rw [codependentStep.loop_cancelCalls_length]
    split <;> simp

/-- C15 at three children, one failing, one cancelled and one returning nil,
in two arrival orders. -/
theorem codependentRun_order_independent_witness :
    (((codependentStep.mk true false).loop
          [some (.plain "exit status 1"), some ErrCancelled, none]).aggregate).Perm
        ((codependentStep.mk true false).loop
          [none, some (.plain "exit status 1"), some ErrCancelled]).aggregate ∧
      ((codependentStep.mk true false).Run
          [some (.plain "exit status 1"), some ErrCancelled, none] = none ↔
        (codependentStep.mk true false).Run
          [none, some (.plain "exit status 1"), some ErrCancelled] = none) ∧
      ((codependentStep.mk true false).loop
          [some (.plain "exit status 1"), some ErrCancelled, none]).cancelCalls.length =
        ((codependentStep.mk true false).loop
          [none, some (.plain "exit status 1"), some ErrCancelled]).cancelCalls.length ∧
      ((codependentStep.mk true false).loop
          [some (.plain "exit status 1"), some ErrCancelled, none]).cancelCalls.length ≤ 1 :=
  codependentRun_order_independent (codependentStep.mk true false)
    [some (.plain "exit status 1"), some ErrCancelled, none]
    [none, some (.plain "exit status 1"), some ErrCancelled] (by decide)

/-- C19: with `errorOnExit` set, the result loop goes through the same states
for both values of `cancelOthersOnExit` on every sequence of child results:
the aggregated errors, the `cancelled` flag and the calls of `cancel`, with
the iterations that make them, are the same, and so is the error `Run`
returns; a result is never nil after the nil replacement, so the test of
`cancelOthersOnExit` never succeeds. -/
theorem codependentRun_errorOnExit_ignores_cancelOthersOnExit
    (results : List (Option GoError)) :
    (codependentStep.mk true true).loop results =
        (codependentStep.mk true false).loop results ∧
      (codependentStep.mk true true).Run results =
        (codependentStep.mk true false).Run results ∧
      (∀ (cancelOthersOnExit : Bool) (r : Option GoError),
        (codependentStep.mk true cancelOthersOnExit).replaceNil r ≠ none) := by
  have hbody : ∀ (st : LoopState) (r : Option GoError),
      (codependentStep.mk true true).loopBody st r =
        (codependentStep.mk true false).loopBody st r := by
    intro st r
    cases r <;> simp [codependentStep.loopBody, codependentStep.replaceNil]
  have hloop : (codependentStep.mk true true).loop results =
      (codependentStep.mk true false).loop results := by
    unfold codependentStep.loop
    congr 1
    funext st r
    exact hbody st r
  refine ⟨hloop, ?_, ?_⟩
  · unfold codependentStep.Run
    rw [hloop]
  · intro c r
    cases r <;> simp [codependentStep.replaceNil]

/-! ## A further claim about the health-check step -/

/-- C20: the liveness branch is not total.  When the readiness check has
returned nil and the liveness check then exits with nil, `Run` logs
"transitioned-to-unhealthy" and then calls `err.Error()` on the nil error: the
call panics and returns no error, whatever the clock did and whatever happens
afterwards. -/
theorem healthCheckRun_liveness_nil_panics (step : healthCheckStep) (ds ds' : List Nat)
    (post : List Event) :
    (step.Run (ticks ds ++ .readinessExited none ::
        (ticks ds' ++ .livenessExited none :: post))).phase = .panicked ∧
      (step.Run (ticks ds ++ .readinessExited none ::
        (ticks ds' ++ .livenessExited none :: post))).effects =
        startEffects ++ healthyEffects ++ [.loggerInfo "transitioned-to-unhealthy" []] ∧
      (∀ err, (step.Run (ticks ds ++ .readinessExited none ::
        (ticks ds' ++ .livenessExited none :: post))).phase ≠ .returned err) := by
  have h : step.Run (ticks ds ++ .readinessExited none ::
      (ticks ds' ++ .livenessExited none :: post)) =
      { phase := .panicked
        effects := startEffects ++ healthyEffects ++
          [.loggerInfo "transitioned-to-unhealthy" []]
        elapsed := ds.sum + ds'.sum } := by
    rw [healthCheckStep.Run_healthy_cons]
    exact healthCheckStep.foldl_finished step post _ rfl
  rw [h]
  refine ⟨rfl, rfl, ?_⟩
  intro err hne
  cases hne

/-! ## A claim about the route table -/

/-- C17: `api.Routes` has exactly the six entries of the control-plane route
table, in this order; no two entries share both method and path, and no two
share a handler name. -/
theorem Routes_table :
    Routes =
        [ { Path := "/containers", Method := "GET", Handler := "ListContainers" },
          { Path := "/containers/:guid", Method := "GET", Handler := "GetContainer" },
          { Path := "/containers/:guid", Method := "POST", Handler := "AllocateContainer" },
          { Path := "/containers/:guid/initialize", Method := "POST",
            Handler := "InitializeContainer" },
          { Path := "/containers/:guid/run", Method := "POST", Handler := "RunActions" },
          { Path := "/containers/:guid", Method := "DELETE",
            Handler := "DeleteContainer" } ] ∧
      Routes.length = 6 ∧
      (Routes.map fun r => (r.Method, r.Path)).Nodup ∧
      (Routes.map fun r => r.Handler).Nodup := by
  decide

end Executor

namespace Executor

/-! ## Executions of the codependent step with its goroutines -/

/-- One more result in arrival order is one more iteration of the loop. -/
theorem codependentStep.loop_concat (step : codependentStep)
    (results : List (Option GoError)) (r : Option GoError) :
    step.loop (results ++ [r]) = step.loopBody (step.loop results) r := by
  simp [codependentStep.loop, List.foldl_append]

/-- An iteration of the loop counts one more received result. -/
theorem codependentStep.loopBody_received (step : codependentStep) (st : LoopState)
    (r : Option GoError) : (step.loopBody st r).received = st.received + 1 := by
  rw [codependentStep.loopBody_eq]

/-- Every step of every thread keeps the number of substeps and what holds
of every reachable state: no more substeps are started than there are; each
value received from `errCh` or buffered in it was sent by a goroutine of its
own; `Run` has returned only with all substeps started and as many results
received; the loop variables are those of the loop on the results received;
and the value returned is `ErrorOrNil` of the aggregate. -/
theorem codependentStep.transition_invariant (step : codependentStep)
    (st st' : RunThreads) (t : Transition)
    (hlen : st.children.length ≤ st.substeps)
    (hcount : st.loop.received + st.errCh.length = st.children.count .reported)
    (hret : st.returned ≠ none →
      st.children.length = st.substeps ∧ st.loop.received = st.substeps)
    (hloop : ∃ results, st.loop = step.loop results)
    (hval : ∀ r, st.returned = some r → r = ErrorOrNil st.loop.aggregate)
    (h : step.transition st t = some st') :
    st'.substeps = st.substeps ∧
      st'.children.length ≤ st'.substeps ∧
      st'.loop.received + st'.errCh.length = st'.children.count .reported ∧
      (st'.returned ≠ none →
        st'.children.length = st'.substeps ∧ st'.loop.received = st'.substeps) ∧
      (∃ results, st'.loop = step.loop results) ∧
      (∀ r, st'.returned = some r → r = ErrorOrNil st'.loop.aggregate) := by
  obtain ⟨n, children, errCh, loop, returned⟩ := st
  simp only at hlen hcount hret hloop hval
  cases t with
  | start =>
    simp only [codependentStep.transition] at h
    split at h
    · rename_i hlt
      cases h
      refine ⟨rfl, ?_, ?_, ?_, hloop, hval⟩
      · simp only [List.length_append, List.length_singleton]
        omega
      · simp only [List.count_append]
        rw [hcount]
        simp [List.count_singleton]
      · intro hr
        have := (hret hr).1
        omega
    · cases h
  | waitDelivers i err =>
    simp only [codependentStep.transition] at h
    split at h
    · rename_i hget
      cases h
      obtain ⟨hi, hci⟩ := List.getElem?_eq_some_iff.1 hget
      refine ⟨rfl, ?_, ?_, ?_, hloop, hval⟩
      · simpa using hlen
      · simp only
        rw [List.count_set _ _ _ _ hi, hci, hcount]
        simp
      · intro hr
        simpa using hret hr
    · cases h
  | send i =>
    simp only [codependentStep.transition] at h
    split at h
    · rename_i err hget
      split at h
      · cases h
        obtain ⟨hi, hci⟩ := List.getElem?_eq_some_iff.1 hget
        refine ⟨rfl, ?_, ?_, ?_, hloop, hval⟩
        · simpa using hlen
        · simp only [List.length_append, List.length_singleton]
          rw [List.count_set _ _ _ _ hi, hci]
          simp
          omega
        · intro hr
          simpa using hret hr
      · cases h
    · cases h
  | receive =>
    simp only [codependentStep.transition] at h
    split at h
    · rename_i hguard
      obtain ⟨hall, hlt, hnone⟩ := hguard
      cases errCh with
      | nil => simp at h
      | cons err rest =>
        simp only [Option.some.injEq] at h
        subst h
        have hnone' : returned = none := hnone
        refine ⟨rfl, hlen, ?_, ?_, ?_, ?_⟩
        · have hrec := codependentStep.loopBody_received step loop err
          have hcount' : loop.received + (rest.length + 1) =
              List.count ChildStatus.reported children := by
            simpa using hcount
          show (step.loopBody loop err).received + rest.length =
            List.count ChildStatus.reported children
          omega
        · intro hr
          exact absurd hnone' hr
        · obtain ⟨results, hres⟩ := hloop
          exact ⟨results ++ [err], by rw [codependentStep.loop_concat, hres]⟩
        · intro r hr
          have hr' : returned = some r := hr
          rw [hnone'] at hr'
          cases hr'
    · cases h
  | ret =>
    simp only [codependentStep.transition] at h
    split at h
    · rename_i hguard
      obtain ⟨hall, heq, hnone⟩ := hguard
      cases h
      refine ⟨rfl, hlen, hcount, fun _ => ⟨hall, heq⟩, hloop, ?_⟩
      intro r hr
      simp only [Option.some.injEq] at hr
      exact hr.symm
    · cases h

end Executor

namespace Executor

/-- What holds of the entry of `Run` and is kept by every step holds after
every execution. -/
theorem codependentStep.exec_invariant (step : codependentStep) (ts : List Transition)
    (st st' : RunThreads)
    (hlen : st.children.length ≤ st.substeps)
    (hcount : st.loop.received + st.errCh.length = st.children.count .reported)
    (hret : st.returned ≠ none →
      st.children.length = st.substeps ∧ st.loop.received = st.substeps)
    (hloop : ∃ results, st.loop = step.loop results)
    (hval : ∀ r, st.returned = some r → r = ErrorOrNil st.loop.aggregate)
    (h : step.exec st ts = some st') :
    st'.substeps = st.substeps ∧
      st'.children.length ≤ st'.substeps ∧
      st'.loop.received + st'.errCh.length = st'.children.count .reported ∧
      (st'.returned ≠ none →
        st'.children.length = st'.substeps ∧ st'.loop.received = st'.substeps) ∧
      (∃ results, st'.loop = step.loop results) ∧
      (∀ r, st'.returned = some r → r = ErrorOrNil st'.loop.aggregate) := by
  induction ts generalizing st with
  | nil =>
    simp only [codependentStep.exec, Option.some.injEq] at h
    subst h
    exact ⟨rfl, hlen, hcount, hret, hloop, hval⟩
  | cons t rest ih =>
    simp only [codependentStep.exec] at h
    cases hstep : step.transition st t with
    | none => simp [hstep] at h
    | some mid =>
      rw [hstep] at h
      obtain ⟨hn, h1, h2, h3, h4, h5⟩ :=
        codependentStep.transition_invariant step st mid t hlen hcount hret hloop hval hstep
      obtain ⟨hn', hrest⟩ := ih mid h1 h2 h3 h4 h5 h
      exact ⟨hn'.trans hn, hrest⟩

/-! ## A claim about the goroutines of `codependentStep.Run` -/

/-- C16: in every execution of `Run` with `n` substeps and their goroutines,
whatever the substeps return and whether or not the loop has cancelled them,
once `Run` has returned every one of the `n` substeps has been started, every
one has exited and had its result sent on `errCh` by its own goroutine, the
loop has received `n` results and `errCh` is empty; the loop variables are
those of the result loop on the `n` results in the order received, and the
value returned is `Run` of them. -/
theorem codependentRun_returns_after_children (step : codependentStep) (n : Nat)
    (ts : List Transition) (st : RunThreads)
    (h : step.exec (RunThreads.init n) ts = some st) (hret : st.returned ≠ none) :
    st.children.length = n ∧
      (∀ c ∈ st.children, c = ChildStatus.reported) ∧
      st.loop.received = n ∧
      st.errCh = [] ∧
      ∃ results : List (Option GoError), results.length = n ∧
        st.loop = step.loop results ∧ st.returned = some (step.Run results) := by
  obtain ⟨hn, hlen, hcount, hdone, ⟨results, hres⟩, hval⟩ :=
    codependentStep.exec_invariant step ts (RunThreads.init n) st
      (Nat.zero_le _) rfl (fun hne => absurd rfl hne) ⟨[], rfl⟩
      (fun r hr => by cases hr) h
  have hn' : st.substeps = n := hn
  obtain ⟨hall, hrecv⟩ := hdone hret
  rw [hn'] at hall hrecv
  have hle := List.count_le_length ChildStatus.reported st.children
  have hch : st.errCh.length = 0 := by omega
  have hcnt : st.children.count ChildStatus.reported = st.children.length := by omega
  have hlenres : results.length = n := by
    have hr := codependentStep.foldl_received step results LoopState.init
    have : (step.loop results).received = results.length := by
      simpa [codependentStep.loop, LoopState.init] using hr
    rw [← hres, hrecv] at this
    exact this.symm
  refine ⟨hall, ?_, hrecv, List.length_eq_zero.1 hch, results, hlenres, hres, ?_⟩
  · intro c hc
    exact (List.count_eq_length.1 hcnt c hc).symm
  · cases hr : st.returned with
    | none => exact absurd hr hret
    | some r =>
      rw [hval r hr, hres]
      rfl

/-- C16 at two substeps: the second fails first, the loop cancels, the first
then exits cancelled, and `Run` returns after both results are received. -/
theorem codependentRun_returns_after_children_witness :
    (codependentStep.mk false false).exec (RunThreads.init 2)
        [.start, .start, .waitDelivers 1 (some (.plain "exit status 1")), .send 1,
         .receive, .waitDelivers 0 (some ErrCancelled), .send 0, .receive, .ret] =
      some
        { substeps := 2
          children := [.reported, .reported]
          errCh := []
          loop :=
            { aggregate := [.plain "exit status 1"], cancelled := true,
              cancelCalls := [⟨0, Signal.Interrupt⟩], received := 2 }
          returned := some (some (.multi [.plain "exit status 1"] "exit status 1")) } ∧
      ([ChildStatus.reported, ChildStatus.reported].length = 2 ∧
        ∀ c ∈ [ChildStatus.reported, ChildStatus.reported], c = ChildStatus.reported) :=
  ⟨by decide,
    let h := codependentRun_returns_after_children (codependentStep.mk false false) 2
      [.start, .start, .waitDelivers 1 (some (.plain "exit status 1")), .send 1,
       .receive, .waitDelivers 0 (some ErrCancelled), .send 0, .receive, .ret]
      { substeps := 2
        children := [.reported, .reported]
        errCh := []
        loop :=
          { aggregate := [.plain "exit status 1"], cancelled := true,
            cancelCalls := [⟨0, Signal.Interrupt⟩], received := 2 }
        returned := some (some (.multi [.plain "exit status 1"] "exit status 1")) }
      (by decide) (by decide)
    ⟨h.1, h.2.1⟩⟩

end Executor
